import Mathlib

/-!
# submtr: sample-case scraper

A shallow embedding of `main.go` and the properties of its parts: the sample extractor
(`FetchSampleCases`), the file writer (`SaveSamples`), the contest resolver
(`GetMostRecentContestID`) and the bounded dispatcher (`main`).

Modelling conventions.

* A Go `string` is a Lean `String` (well-formed UTF-8 text).  `strings.HasPrefix` and
  `strings.TrimPrefix` compare code points; on well-formed UTF-8 this is the byte-wise
  comparison Go performs.  Where the program indexes *bytes* (`s[0]`), the UTF-8 bytes of
  the string are used (`utf8Bytes`).
* The network is a function from a URL to the outcome of `http.Get`; the response body is
  represented by the outcome of `goquery.NewDocumentFromReader` on it.
* A parsed document is represented by what the program's selectors return on it, in
  document order.
* The file system is the history of the operations that succeeded; which operations fail
  is decided by an oracle on operations.
* A path on disk is the list of names it resolves to: the pieces between slashes, without
  the empty ones and without `.`.
* The tasks of the dispatcher are a step relation: a task takes a slot of the channel, performs
  its file-system operations one at a time, and gives the slot back.
-/

namespace Submtr

/-! ## Strings -/

/-- Go `strings.HasPrefix(s, pre)`. -/
def HasPrefix (s pre : String) : Bool :=
  pre.data.isPrefixOf s.data

/-- Go `strings.TrimPrefix(s, pre)`: `s` without the leading `pre`, or `s` itself when it
does not start with `pre`. -/
def TrimPrefix (s pre : String) : String :=
  if HasPrefix s pre then String.mk (s.data.drop pre.data.length) else s

/-- The bytes of a Go string, as numbers below 256. -/
def utf8Bytes (s : String) : List Nat :=
  (s.data.flatMap String.utf8EncodeChar).map UInt8.toNat

/-- Go `string(r)` for a rune `r`: the UTF-8 text of the code point, and U+FFFD for a value
that is not a valid code point. -/
def runeToString (r : Nat) : String :=
  if r.isValidChar then String.singleton (Char.ofNat r) else String.singleton (Char.ofNat 0xFFFD)

/-! ## Data model -/

/-- TestCase sample input/output -/
structure Sample where
  Input : String
  Output : String
deriving DecidableEq, Repr

/-- One element selected by `doc.Find("section")`, seen through the two queries the
extractor makes on it: `s.Find("h3").Text()` and `s.Find("pre").Text()`. -/
structure Section where
  heading : String
  text : String
deriving DecidableEq, Repr

/-- One element selected by `doc.Find("table tbody tr")`, seen through `s.Find("a")`: the
`href` attribute of each anchor of the row, `none` for an anchor without one. -/
structure Row where
  anchors : List (Option String)
deriving DecidableEq, Repr

/-- A parsed HTML document, as far as the selectors of the program see it. -/
structure Document where
  sections : List Section
  rows : List Row
deriving DecidableEq, Repr

/-- An HTTP response: its status code and the outcome of parsing its body. -/
structure Response where
  StatusCode : Int
  Body : Except String Document

/-- The outcome of `http.Get` for each URL. -/
abbrev HttpGet := String → Except String Response

/-! ## Sample extractor -/

/-- The state of the section scan: `samples` and `current`. -/
structure ScanState where
  samples : List Sample
  current : Sample
deriving DecidableEq, Repr

/-- The body of the closure passed to `doc.Find("section").Each`. -/
def scanSection (st : ScanState) (s : Section) : ScanState :=
  let heading := s.heading
  let text := s.text
  if HasPrefix heading "Sample Input" then
    { st with current := { Input := text, Output := "" } }
  else if HasPrefix heading "Sample Output" then
    let current := { st.current with Output := text }
    { samples := st.samples ++ [current], current := current }
  else
    st

/-- The section scan of `FetchSampleCases` (lines 43-58): `samples` after the closure ran on
every section in document order, starting from the zero values. -/
def scanSections (sections : List Section) : List Sample :=
  (sections.foldl scanSection { samples := [], current := { Input := "", Output := "" } }).samples

/-- The URL of a problem page. -/
def problemURL (contestID problemID : String) : String :=
  "https://atcoder.jp/contests/" ++ contestID ++ "/tasks/" ++ contestID ++ "_" ++ problemID

/-- The error of a missing problem page. -/
def errProblemNotFound (problemID : String) : String :=
  "problem " ++ problemID ++ " not found (404)"

/-- The error of any other unsuccessful status. -/
def errUnexpectedStatus (code : Int) : String :=
  "unexpected status code " ++ toString code

/-- `FetchSampleCases`. -/
def FetchSampleCases (httpGet : HttpGet) (contestID problemID : String) :
    Except String (List Sample) :=
  let url := problemURL contestID problemID
  match httpGet url with
  | .error err => .error ("failed to fetch problem page: " ++ err)
  | .ok resp =>
    if resp.StatusCode = 404 then
      .error (errProblemNotFound problemID)
    else if resp.StatusCode ≠ 200 then
      .error (errUnexpectedStatus resp.StatusCode)
    else
      match resp.Body with
      | .error err => .error ("failed to parse HTML: " ++ err)
      | .ok doc => .ok (scanSections doc.sections)

/-! ## Headings -/

/-- A section whose heading begins with the input marker. -/
def isInputHeading (s : Section) : Bool :=
  HasPrefix s.heading "Sample Input"

/-- A section whose heading begins with the output marker. -/
def isOutputHeading (s : Section) : Bool :=
  HasPrefix s.heading "Sample Output"

/-- A section the scan looks at: its heading begins with one of the two markers. -/
def isSampleSection (s : Section) : Bool :=
  isInputHeading s || isOutputHeading s

/-- The samples the scan appends from `sections` on, when the pending sample has input text
`input`. -/
def samplesFrom (input : String) : List Section → List Sample
  | [] => []
  | s :: rest =>
    if isInputHeading s then samplesFrom s.text rest
    else if isOutputHeading s then
      { Input := input, Output := s.text } :: samplesFrom input rest
    else samplesFrom input rest

/-- The pre text of the nearest input-heading section of `before` (the sections earlier in
the page), `dflt` if there is none. -/
def nearestInputOr (dflt : String) (before : List Section) : String :=
  match before.reverse.find? isInputHeading with
  | some s => s.text
  | none => dflt

/-- The pre text of the nearest input-heading section earlier in the page, the empty string
if there is none. -/
def nearestInputText (before : List Section) : String :=
  nearestInputOr "" before

/-- The sections of `pairs` laid out in document order: input, output, input, output, ... -/
def alternating (pairs : List (Section × Section)) : List Section :=
  pairs.flatMap fun p => [p.1, p.2]

/-- The sample made of the pre texts of an input section and an output section. -/
def sampleOfPair (p : Section × Section) : Sample :=
  { Input := p.1.text, Output := p.2.text }

/-! ## File writer -/

/-- A file-system operation the program performs. -/
inductive FsOp where
  /-- `os.MkdirAll(path, perm)` -/
  | mkdirAll (path : String) (perm : Nat)
  /-- `os.WriteFile(name, data, perm)` -/
  | writeFile (name : String) (data : String) (perm : Nat)
deriving DecidableEq, Repr

/-- The file system, as the history of the operations that succeeded, oldest first. -/
abbrev FS := List FsOp

/-- The operating system's verdict on an operation: `none` when it succeeds, the error
otherwise. -/
abbrev Os := FsOp → Option String

/-- `os.MkdirAll`: the file system afterwards and the error, if any. -/
def MkdirAll (os : Os) (fs : FS) (path : String) (perm : Nat) : FS × Option String :=
  match os (.mkdirAll path perm) with
  | some err => (fs, some err)
  | none => (fs ++ [.mkdirAll path perm], none)

/-- `os.WriteFile`: the file system afterwards and the error, if any. -/
def WriteFile (os : Os) (fs : FS) (name data : String) (perm : Nat) : FS × Option String :=
  match os (.writeFile name data perm) with
  | some err => (fs, some err)
  | none => (fs ++ [.writeFile name data perm], none)

/-- The name of the input file of the sample at 0-based position `i`. -/
def inFile (folder : String) (i : Nat) : String :=
  folder ++ "/sample" ++ toString (i + 1) ++ ".in.txt"

/-- The name of the output file of the sample at 0-based position `i`. -/
def outFile (folder : String) (i : Nat) : String :=
  folder ++ "/sample" ++ toString (i + 1) ++ ".out.txt"

/-- The loop of `SaveSamples` from index `i` on. -/
def saveLoop (os : Os) (folder : String) : Nat → List Sample → FS → FS × Option String
  | _, [], fs => (fs, none)
  | i, sample :: rest, fs =>
    match WriteFile os fs (inFile folder i) sample.Input 0o644 with
    | (fs, some err) => (fs, some err)
    | (fs, none) =>
      match WriteFile os fs (outFile folder i) sample.Output 0o644 with
      | (fs, some err) => (fs, some err)
      | (fs, none) => saveLoop os folder (i + 1) rest fs

/-- `SaveSamples`: the file system afterwards and the returned error, if any. -/
def SaveSamples (os : Os) (samples : List Sample) (folder : String) (fs : FS) :
    FS × Option String :=
  match MkdirAll os fs folder 0o755 with
  | (fs, some err) => (fs, some ("failed to create folder " ++ folder ++ ": " ++ err))
  | (fs, none) => saveLoop os folder 0 samples fs

/-- The operations `SaveSamples` is to perform for `samples`, from index `i` on: two writes
per sample. -/
def sampleWrites (folder : String) : Nat → List Sample → List FsOp
  | _, [] => []
  | i, sample :: rest =>
    .writeFile (inFile folder i) sample.Input 0o644
      :: .writeFile (outFile folder i) sample.Output 0o644
      :: sampleWrites folder (i + 1) rest

/-- The path an operation is about. -/
def FsOp.path : FsOp → String
  | .mkdirAll path _ => path
  | .writeFile name _ _ => name

/-! ## Contest resolver -/

/-- The link of a row: `s.Find("a").Eq(1).AttrOr("href", "")`. -/
def rowLink (r : Row) : String :=
  match r.anchors[1]? with
  | some (some href) => href
  | _ => ""

/-- The `EachWithBreak` scan of `GetMostRecentContestID` (lines 100-113): the value of
`contestID` afterwards, and the links printed by `fmt.Println(link)`, one per row the
closure ran on. -/
def scanRows : List Row → String × List String
  | [] => ("", [])
  | s :: rest =>
    let link := rowLink s
    if HasPrefix link "/contests/" then
      let id := TrimPrefix link "/contests/"
      if HasPrefix id "abc" then
        (id, [link])
      else
        let r := scanRows rest
        (r.1, link :: r.2)
    else
      let r := scanRows rest
      (r.1, link :: r.2)

/-- The error of an archive without a contest of the family. -/
def errNoContest : String :=
  "no AtCoder Beginner Contest found in the archive"

/-- `GetMostRecentContestID`. -/
def GetMostRecentContestID (httpGet : HttpGet) : Except String String :=
  match httpGet "https://atcoder.jp/contests/archive" with
  | .error err => .error ("failed to fetch contests archive page: " ++ err)
  | .ok resp =>
    if resp.StatusCode ≠ 200 then
      .error ("failed to fetch contests archive, status: " ++ toString resp.StatusCode)
    else
      match resp.Body with
      | .error err => .error ("failed to parse contests archive page: " ++ err)
      | .ok doc =>
        let contestID := (scanRows doc.rows).1
        if contestID = "" then .error errNoContest else .ok contestID

/-- A row the resolver accepts: its link begins with `/contests/abc`. -/
def isContestRow (r : Row) : Bool :=
  HasPrefix (rowLink r) "/contests/abc"

/-! ## Bounded dispatcher -/

/-- `rune((*problems)[0])`: the first byte of the range string; `none` when the index is out
of range (the program panics). -/
def rangeStart (problems : String) : Option Nat :=
  (utf8Bytes problems).head?

/-- `rune((*problems)[len(*problems)-1])`: the last byte of the range string; `none` when
the index is out of range (the program panics). -/
def rangeEnd (problems : String) : Option Nat :=
  (utf8Bytes problems).getLast?

/-- At most `fuel` iterations of the loop `for ch := start; ch <= end; ch++` of `main`, from
the value `ch` of the loop variable on: the `problemID := string(ch)` of the task launched in
each iteration, in order.  Both bounds are byte values, so the 32-bit `ch++` never wraps. -/
def problemIDsLoop : Nat → Nat → Nat → List String
  | 0, _, _ => []
  | fuel + 1, ch, stop =>
    if ch ≤ stop then runeToString ch :: problemIDsLoop fuel (ch + 1) stop else []

/-- The loop of `main` (lines 144-167): the `problemID` of each task it launches, in launch
order.  The fuel is the number of values from `start` to `stop`, which the loop never
exceeds (`problemIDsLoop_fuel`). -/
def problemIDs (start stop : Nat) : List String :=
  problemIDsLoop (stop + 1 - start) start stop

/-- The body of a task (lines 152-165) as a file-system transformer: extract, and save on
success. -/
def runTask (os : Os) (httpGet : HttpGet) (contestID problemID : String) (fs : FS) : FS :=
  match FetchSampleCases httpGet contestID problemID with
  | .error _ => fs
  | .ok samples => (SaveSamples os samples ("testcases/" ++ problemID) fs).1

/-- The file-system operations a task performs, in program order. -/
def taskOps (os : Os) (httpGet : HttpGet) (contestID problemID : String) : List FsOp :=
  runTask os httpGet contestID problemID []

/-- The locals of `main` when the loop starts (line 144). -/
structure Dispatcher where
  contestID : String
  start : Nat
  stop : Nat
  /-- The capacity of the channel `sem`. -/
  capacity : Nat
deriving DecidableEq, Repr

/-- Lines 128-136 of `main`: the contest identifier in use, the one given or else the one
resolved from the archive; `none` when the resolution fails (`log.Fatalf` ends the process). -/
def resolveContest (httpGet : HttpGet) (contest : String) : Option String :=
  if contest = "" then
    match GetMostRecentContestID httpGet with
    | .error _ => none
    | .ok id => some id
  else some contest

/-- Lines 123-142 of `main`, from the values of the three flags: `none` when the process
ends there (`log.Fatalf` on a failed resolution, an index out of range on an empty range
string, `make` of a channel of negative size). -/
def setup (httpGet : HttpGet) (contest problems : String) (concurrency : Int) :
    Option Dispatcher :=
  match resolveContest httpGet contest, rangeStart problems, rangeEnd problems with
  | some contestID, some start, some stop =>
    if concurrency < 0 then none
    else some { contestID := contestID, start := start, stop := stop,
                capacity := concurrency.toNat }
  | _, _, _ => none

/-- Where a task is in its body. -/
inductive Phase where
  /-- Launched, not yet past `sem <- struct{}{}`. -/
  | blocked
  /-- Holds a slot: fetching, or saving with `pending` operations still to perform. -/
  | active (pending : List FsOp)
  /-- Past the deferred `<-sem`. -/
  | done
deriving DecidableEq, Repr

/-- A task launched by the loop. -/
structure Task where
  problemID : String
  phase : Phase
deriving DecidableEq, Repr

/-- The state of the dispatcher once the tasks are launched. -/
structure State where
  tasks : List Task
  /-- The number of elements in the channel `sem`. -/
  sem : Nat
  /-- The file-system operations performed so far, oldest first, each with the `problemID`
  of the task that performed it. -/
  journal : List (String × FsOp)
deriving DecidableEq, Repr

/-- A step of one task. -/
inductive Action where
  /-- Task `i` completes `sem <- struct{}{}` and fetches. -/
  | acquire (i : Nat)
  /-- Task `i` performs its next file-system operation. -/
  | perform (i : Nat)
  /-- Task `i` returns: the deferred `<-sem` runs. -/
  | release (i : Nat)
deriving DecidableEq, Repr

/-- The state when the loop of `main` has launched its tasks. -/
def initial (d : Dispatcher) : State :=
  { tasks := (problemIDs d.start d.stop).map fun p => { problemID := p, phase := .blocked },
    sem := 0,
    journal := [] }

/-- One step of the dispatcher; `none` when the action is not enabled (a send on a full
channel blocks, as does a receive on an empty one). -/
def step (os : Os) (httpGet : HttpGet) (d : Dispatcher) (s : State) : Action → Option State
  | .acquire i =>
    match s.tasks[i]? with
    | some { problemID := p, phase := .blocked } =>
      if s.sem < d.capacity then
        some { s with
          tasks := s.tasks.set i
            { problemID := p, phase := .active (taskOps os httpGet d.contestID p) },
          sem := s.sem + 1 }
      else none
    | _ => none
  | .perform i =>
    match s.tasks[i]? with
    | some { problemID := p, phase := .active (op :: rest) } =>
      some { s with
        tasks := s.tasks.set i { problemID := p, phase := .active rest },
        journal := s.journal ++ [(p, op)] }
    | _ => none
  | .release i =>
    match s.tasks[i]? with
    | some { problemID := p, phase := .active [] } =>
      if 0 < s.sem then
        some { s with
          tasks := s.tasks.set i { problemID := p, phase := .done },
          sem := s.sem - 1 }
      else none
    | _ => none

/-- A sequence of steps. -/
def run (os : Os) (httpGet : HttpGet) (d : Dispatcher) (s : State) : List Action → Option State
  | [] => some s
  | a :: rest =>
    match step os httpGet d s a with
    | some s1 => run os httpGet d s1 rest
    | none => none

/-- The states the dispatcher can be in. -/
def Reachable (os : Os) (httpGet : HttpGet) (d : Dispatcher) (s : State) : Prop :=
  ∃ actions : List Action, run os httpGet d (initial d) actions = some s

/-- A task that holds a slot. -/
def Task.isActive (t : Task) : Bool :=
  match t.phase with
  | .active _ => true
  | _ => false

/-- The number of tasks that hold a slot. -/
def activeCount (s : State) : Nat :=
  s.tasks.countP Task.isActive

/-- The operations of the journal performed by the task of `problemID`. -/
def opsOf (journal : List (String × FsOp)) (problemID : String) : List FsOp :=
  (journal.filter fun e => e.1 = problemID).map Prod.snd

/-! ## Decimal numerals -/

/-- The value of a decimal digit character. -/
def digitValue (c : Char) : Nat := c.toNat - 48

/-- The number a list of decimal digits denotes, most significant digit first. -/
def decimalValue (cs : List Char) : Nat := cs.foldl (fun acc c => 10 * acc + digitValue c) 0

/-- What the journal holds for a task that is to perform `ops`, given the phase it is in:
nothing before it holds a slot, all of `ops` but the pending ones while it holds one, and all
of `ops` afterwards. -/
def PhaseOK (ops performed : List FsOp) : Phase → Prop
  | .blocked => performed = []
  | .active pending => performed ++ pending = ops
  | .done => performed = ops

/-- The invariant of the journal: the tasks are those the loop launched, and the journal
holds for each what its phase says. -/
def JournalOK (os : Os) (httpGet : HttpGet) (d : Dispatcher) (s : State) : Prop :=
  s.tasks.map Task.problemID = problemIDs d.start d.stop
    ∧ (∀ (j : Nat) (t : Task), s.tasks[j]? = some t →
        PhaseOK (taskOps os httpGet d.contestID t.problemID) (opsOf s.journal t.problemID)
          t.phase)
    ∧ (∀ e ∈ s.journal, e.1 ∈ problemIDs d.start d.stop
        ∧ e.2 ∈ taskOps os httpGet d.contestID e.1)

/-! ## Concrete inputs -/

/-- A problem page with two samples and a section that is not a sample. -/
def examplePage : Document :=
  { sections :=
      [ { heading := "Problem Statement", text := "" },
        { heading := "Sample Input 1", text := "1 2\n" },
        { heading := "Sample Output 1", text := "3\n" },
        { heading := "Notes", text := "" },
        { heading := "Sample Input 2", text := "5 7\n" },
        { heading := "Sample Output 2", text := "12\n" } ],
    rows := [] }

/-- An archive page whose second row is the first of the contest family. -/
def exampleArchive : Document :=
  { sections := [],
    rows :=
      [ { anchors := [some "/contests/archive?category=1", some "/contests/arc180"] },
        { anchors := [some "/contests/archive?category=0", some "/contests/abc360"] },
        { anchors := [some "/contests/archive?category=0", some "/contests/abc359"] } ] }

/-- A network on which problem `a` of contest `abc360` has the example page, the archive
has the example listing, and every other page is missing. -/
def exampleNet : HttpGet := fun url =>
  if url = "https://atcoder.jp/contests/abc360/tasks/abc360_a" then
    .ok { StatusCode := 200, Body := .ok examplePage }
  else if url = "https://atcoder.jp/contests/archive" then
    .ok { StatusCode := 200, Body := .ok exampleArchive }
  else
    .ok { StatusCode := 404, Body := .ok { sections := [], rows := [] } }

/-- An operating system on which every operation succeeds. -/
def exampleOs : Os := fun _ => none

/-- The dispatcher for contest `abc360`, range `a-b`, one slot. -/
def exampleDispatcher : Dispatcher :=
  { contestID := "abc360", start := 97, stop := 98, capacity := 1 }

/-- A complete run of the example dispatcher: task `b` first, then task `a`. -/
def exampleRun : List Action :=
  [.acquire 1, .release 1, .acquire 0, .perform 0, .perform 0, .perform 0, .perform 0,
   .perform 0, .release 0]

/-- The state at the end of the example run. -/
def exampleFinal : State :=
  { tasks := [{ problemID := "a", phase := .done }, { problemID := "b", phase := .done }],
    sem := 0,
    journal :=
      [ ("a", .mkdirAll "testcases/a" 0o755),
        ("a", .writeFile "testcases/a/sample1.in.txt" "1 2\n" 0o644),
        ("a", .writeFile "testcases/a/sample1.out.txt" "3\n" 0o644),
        ("a", .writeFile "testcases/a/sample2.in.txt" "5 7\n" 0o644),
        ("a", .writeFile "testcases/a/sample2.out.txt" "12\n" 0o644) ] }

/-- A state of the example run in which task `a` holds the only slot. -/
def exampleMiddle : State :=
  { tasks :=
      [ { problemID := "a",
          phase := .active
            [ .writeFile "testcases/a/sample1.in.txt" "1 2\n" 0o644,
              .writeFile "testcases/a/sample1.out.txt" "3\n" 0o644,
              .writeFile "testcases/a/sample2.in.txt" "5 7\n" 0o644,
              .writeFile "testcases/a/sample2.out.txt" "12\n" 0o644 ] },
        { problemID := "b", phase := .done } ],
    sem := 1,
    journal := [("a", .mkdirAll "testcases/a" 0o755)] }

/-- A network on which every page is answered with status 500. -/
def brokenNet : HttpGet := fun _ =>
  .ok { StatusCode := 500, Body := .error "unexpected EOF" }

/-! ## Paths on disk -/

/-- A path cut at its slashes: the characters before the first slash, and the pieces
between the later ones. -/
def splitOnSlash : List Char → List Char × List (List Char)
  | [] => ([], [])
  | c :: cs =>
    let r := splitOnSlash cs
    if c = '/' then ([], r.1 :: r.2) else (c :: r.1, r.2)

/-- The names a path goes through when the operating system resolves it: the pieces between
slashes, without the empty ones (repeated or trailing slashes) and without `.`. -/
def pathNames (path : String) : List (List Char) :=
  let r := splitOnSlash path.data
  (r.1 :: r.2).filter fun name => name ≠ [] ∧ name ≠ ['.']

/-- On disk, `path` is the directory `folder` or lies below it. -/
def isUnder (folder path : String) : Bool :=
  (pathNames folder).isPrefixOf (pathNames path)

/-! ## Progress of the dispatcher -/

/-- The number of steps a task still has to take: the slot, each pending operation, and the
return. -/
def Task.stepsLeft (os : Os) (httpGet : HttpGet) (contestID : String) (t : Task) : Nat :=
  match t.phase with
  | .blocked => (taskOps os httpGet contestID t.problemID).length + 2
  | .active pending => pending.length + 1
  | .done => 0

/-- The number of steps all tasks together still have to take. -/
def stepsLeft (os : Os) (httpGet : HttpGet) (d : Dispatcher) (s : State) : Nat :=
  (s.tasks.map (Task.stepsLeft os httpGet d.contestID)).sum

/-- A state at rest: no task can take a step. -/
def AtRest (os : Os) (httpGet : HttpGet) (d : Dispatcher) (s : State) : Prop :=
  ∀ a : Action, step os httpGet d s a = none

/-- A network on which the page of problem `/` of contest `abc360` is the example page and
every other page is missing. -/
def slashNet : HttpGet := fun url =>
  if url = "https://atcoder.jp/contests/abc360/tasks/abc360_/" then
    .ok { StatusCode := 200, Body := .ok examplePage }
  else
    .ok { StatusCode := 404, Body := .ok { sections := [], rows := [] } }

/-- The dispatcher for contest `abc360`, range `./`, one slot. -/
def slashDispatcher : Dispatcher :=
  { contestID := "abc360", start := 46, stop := 47, capacity := 1 }

/-- A complete run of the dispatcher for the range `./`. -/
def slashRun : List Action :=
  [.acquire 0, .release 0, .acquire 1, .perform 1, .perform 1, .perform 1, .perform 1,
   .perform 1, .release 1]

/-- The state at the end of the run for the range `./`. -/
def slashFinal : State :=
  { tasks := [{ problemID := ".", phase := .done }, { problemID := "/", phase := .done }],
    sem := 0,
    journal :=
      [ ("/", .mkdirAll "testcases//" 0o755),
        ("/", .writeFile "testcases///sample1.in.txt" "1 2\n" 0o644),
        ("/", .writeFile "testcases///sample1.out.txt" "3\n" 0o644),
        ("/", .writeFile "testcases///sample2.in.txt" "5 7\n" 0o644),
        ("/", .writeFile "testcases///sample2.out.txt" "12\n" 0o644) ] }

/-! ## Lemmas on the section scan -/

theorem input_not_output (s : Section) (h : isInputHeading s = true) :
    isOutputHeading s = false := by
  unfold isInputHeading HasPrefix at h
  unfold isOutputHeading HasPrefix
  rw [ List.isPrefixOf_iff_prefix] at h
  obtain ⟨t, ht⟩ := h
  rw [← ht]
  rfl

theorem foldl_scanSection_samples (sections : List Section) (st : ScanState) :
    (sections.foldl scanSection st).samples
      = st.samples ++ samplesFrom st.current.Input sections := by
  induction sections generalizing st with
  | nil => simp [samplesFrom]
  | cons s rest ih =>
    rw [List.foldl_cons, ih]
    by_cases hi : HasPrefix s.heading "Sample Input" = true
    · simp [scanSection, samplesFrom, isInputHeading, hi]
    · by_cases ho : HasPrefix s.heading "Sample Output" = true
      · simp [scanSection, samplesFrom, isInputHeading, isOutputHeading, hi, ho]
      · simp [scanSection, samplesFrom, isInputHeading, isOutputHeading, hi, ho]

theorem scanSections_eq_samplesFrom (sections : List Section) :
    scanSections sections = samplesFrom "" sections := by
  simp [scanSections, foldl_scanSection_samples]

theorem samplesFrom_filter (input : String) (sections : List Section) :
    samplesFrom input (sections.filter isSampleSection) = samplesFrom input sections := by
  induction sections generalizing input with
  | nil => rfl
  | cons s rest ih =>
    by_cases hi : isInputHeading s = true
    · simp [List.filter_cons, isSampleSection, hi, samplesFrom, ih]
    · by_cases ho : isOutputHeading s = true
      · simp [List.filter_cons, isSampleSection, hi, ho, samplesFrom, ih]
      · simp [List.filter_cons, isSampleSection, hi, ho, samplesFrom, ih]

theorem samplesFrom_alternating (input : String) (pairs : List (Section × Section))
    (h : ∀ p ∈ pairs, isInputHeading p.1 = true ∧ isOutputHeading p.2 = true) :
    samplesFrom input (alternating pairs) = pairs.map sampleOfPair := by
  induction pairs generalizing input with
  | nil => rfl
  | cons p rest ih =>
    have hp := h p (List.mem_cons_self _ _)
    have hrest : ∀ q ∈ rest, isInputHeading q.1 = true ∧ isOutputHeading q.2 = true :=
      fun q hq => h q (List.mem_cons_of_mem _ hq)
    have hno : isInputHeading p.2 = false := by
      cases hc : isInputHeading p.2 with
      | false => rfl
      | true => have := input_not_output p.2 hc; rw [hp.2] at this; cases this
    have hcons : alternating (p :: rest) = p.1 :: p.2 :: alternating rest := by
      simp [alternating]
    rw [hcons, List.map_cons, ← ih p.1.text hrest]
    simp [samplesFrom, hp.1, hp.2, hno, sampleOfPair]

theorem nearestInputOr_cons (dflt : String) (s : Section) (before : List Section) :
    nearestInputOr dflt (s :: before)
      = nearestInputOr (if isInputHeading s then s.text else dflt) before := by
  unfold nearestInputOr
  rw [List.reverse_cons, List.find?_append]
  cases before.reverse.find? isInputHeading with
  | some t => rfl
  | none =>
    by_cases hi : isInputHeading s = true
    · simp [hi]
    · simp [hi]

theorem samplesFrom_length (input : String) (sections : List Section) :
    (samplesFrom input sections).length = (sections.filter isOutputHeading).length := by
  induction sections generalizing input with
  | nil => rfl
  | cons s rest ih =>
    by_cases hi : isInputHeading s = true
    · simp [samplesFrom, hi, List.filter_cons, input_not_output s hi, ih]
    · by_cases ho : isOutputHeading s = true
      · simp [samplesFrom, hi, ho, List.filter_cons, ih]
      · simp [samplesFrom, hi, ho, List.filter_cons, ih]

theorem samplesFrom_append (input : String) (before after : List Section) :
    samplesFrom input (before ++ after)
      = samplesFrom input before ++ samplesFrom (nearestInputOr input before) after := by
  induction before generalizing input with
  | nil => simp [samplesFrom, nearestInputOr]
  | cons s rest ih =>
    rw [nearestInputOr_cons]
    by_cases hi : isInputHeading s = true
    · simp [samplesFrom, hi, ih]
    · by_cases ho : isOutputHeading s = true
      · simp [samplesFrom, hi, ho, ih]
      · simp [samplesFrom, hi, ho, ih]

theorem samplesFrom_at_output (input : String) (before : List Section) (s : Section)
    (after : List Section) (ho : isOutputHeading s = true) :
    (samplesFrom input (before ++ s :: after))[(before.filter isOutputHeading).length]?
      = some { Input := nearestInputOr input before, Output := s.text } := by
  have hi : isInputHeading s = false := by
    cases hc : isInputHeading s with
    | false => rfl
    | true => have := input_not_output s hc; rw [ho] at this; cases this
  rw [samplesFrom_append, ← samplesFrom_length input before,
    List.getElem?_append_right (Nat.le_refl _)]
  simp [samplesFrom, hi, ho]

theorem nearestInputOr_no_input (dflt : String) (before : List Section)
    (h : ∀ t ∈ before, isInputHeading t = false) : nearestInputOr dflt before = dflt := by
  unfold nearestInputOr
  have : before.reverse.find? isInputHeading = none := by
    rw [List.find?_eq_none]
    intro t ht
    simp [h t (List.mem_reverse.mp ht)]
  rw [this]

theorem append_ne_of_head (a b x y : String) (c d : Char) (as bs : List Char)
    (ha : a.data = c :: as) (hb : b.data = d :: bs) (hcd : c ≠ d) : a ++ x ≠ b ++ y := by
  intro h
  have h2 := congrArg String.data h
  rw [String.data_append, String.data_append, ha, hb] at h2
  simp at h2
  exact hcd h2.1

theorem FetchSampleCases_ok_page (httpGet : HttpGet) (contestID problemID : String)
    (doc : Document)
    (h : httpGet (problemURL contestID problemID) = .ok { StatusCode := 200, Body := .ok doc }) :
    FetchSampleCases httpGet contestID problemID = .ok (scanSections doc.sections) := by
  simp [FetchSampleCases, h]

/-! ## Sample extractor: the claims -/

/-- C1: when the sample sections of a page (those whose heading begins with one of the two
markers; the others are ignored wherever they are) are, in document order, the input and
output sections of `pairs`, alternating, the section scan returns one sample per pair, in
page order, made of the pre text of the pair's input section and of its output section. -/
theorem scanSections_alternating (sections : List Section) (pairs : List (Section × Section))
    (hpairs : ∀ p ∈ pairs, isInputHeading p.1 = true ∧ isOutputHeading p.2 = true)
    (hsections : sections.filter isSampleSection = alternating pairs) :
    scanSections sections = pairs.map sampleOfPair
      ∧ (scanSections sections).length = pairs.length := by
  have h : scanSections sections = pairs.map sampleOfPair := by
    rw [scanSections_eq_samplesFrom, ← samplesFrom_filter, hsections]
    exact samplesFrom_alternating "" pairs hpairs
  exact ⟨h, by rw [h, List.length_map]⟩

/-- C2: an output-heading section with no input-heading section before it yields, at its
position among the output sections, a sample with empty `Input` and the section's pre text
as `Output`; the extractor returns the samples without an error. -/
theorem scanSections_output_without_input (before after : List Section) (s : Section)
    (hbefore : ∀ t ∈ before, isInputHeading t = false) (hs : isOutputHeading s = true) :
    (scanSections (before ++ s :: after))[(before.filter isOutputHeading).length]?
        = some { Input := "", Output := s.text }
      ∧ ∀ (httpGet : HttpGet) (contestID problemID : String) (rows : List Row),
          httpGet (problemURL contestID problemID)
              = .ok { StatusCode := 200,
                      Body := .ok { sections := before ++ s :: after, rows := rows } } →
          FetchSampleCases httpGet contestID problemID
            = .ok (scanSections (before ++ s :: after)) := by
  refine ⟨?_, ?_⟩
  · rw [scanSections_eq_samplesFrom, samplesFrom_at_output "" before s after hs,
      nearestInputOr_no_input "" before hbefore]
  · intro httpGet contestID problemID rows h
    exact FetchSampleCases_ok_page httpGet contestID problemID _ h

/-- C10: the section scan returns one sample per output-heading section, in document order:
as many samples as output sections, the sample of an output section being at its position
among the output sections, with the section's pre text as `Output` and the pre text of the
nearest earlier input section (the empty string if none) as `Input`.  Two consecutive
output sections yield two samples with the same `Input`; an input section followed by
another input section, or by the end of the page, contributes no sample. -/
theorem scanSections_one_per_output (sections : List Section) :
    (scanSections sections).length = (sections.filter isOutputHeading).length
      ∧ (∀ before s after, sections = before ++ s :: after → isOutputHeading s = true →
          (scanSections sections)[(before.filter isOutputHeading).length]?
            = some { Input := nearestInputText before, Output := s.text })
      ∧ (∀ before o1 o2 after, sections = before ++ o1 :: o2 :: after →
          isOutputHeading o1 = true → isOutputHeading o2 = true →
          (scanSections sections)[(before.filter isOutputHeading).length]?
              = some { Input := nearestInputText before, Output := o1.text }
            ∧ (scanSections sections)[(before.filter isOutputHeading).length + 1]?
              = some { Input := nearestInputText before, Output := o2.text })
      ∧ (∀ before i1 i2 after, sections = before ++ i1 :: i2 :: after →
          isInputHeading i1 = true → isInputHeading i2 = true →
          scanSections sections = scanSections (before ++ i2 :: after))
      ∧ (∀ before i, sections = before ++ [i] → isInputHeading i = true →
          scanSections sections = scanSections before) := by
  refine ⟨?_, ?_, ?_, ?_, ?_⟩
  · rw [scanSections_eq_samplesFrom, samplesFrom_length]
  · intro before s after hsec hs
    rw [hsec, scanSections_eq_samplesFrom, samplesFrom_at_output "" before s after hs]
    rfl
  · intro before o1 o2 after hsec h1 h2
    have hi1 : isInputHeading o1 = false := by
      cases hc : isInputHeading o1 with
      | false => rfl
      | true => have := input_not_output o1 hc; rw [h1] at this; cases this
    refine ⟨?_, ?_⟩
    · rw [hsec, scanSections_eq_samplesFrom, samplesFrom_at_output "" before o1 _ h1]
      rfl
    · have hsplit : before ++ o1 :: o2 :: after = (before ++ [o1]) ++ o2 :: after := by simp
      have hlen : (before.filter isOutputHeading).length + 1
          = ((before ++ [o1]).filter isOutputHeading).length := by
        simp [List.filter_append, List.filter_cons, h1]
      have hnear : nearestInputOr "" (before ++ [o1]) = nearestInputOr "" before := by
        unfold nearestInputOr
        simp [List.find?_cons, hi1]
      rw [hsec, scanSections_eq_samplesFrom, hsplit, hlen,
        samplesFrom_at_output "" (before ++ [o1]) o2 after h2, hnear]
      rfl
  · intro before i1 i2 after hsec h1 h2
    rw [hsec, scanSections_eq_samplesFrom, scanSections_eq_samplesFrom, samplesFrom_append,
      samplesFrom_append]
    simp [samplesFrom, h1, h2]
  · intro before i hsec hi
    rw [hsec, scanSections_eq_samplesFrom, scanSections_eq_samplesFrom, samplesFrom_append]
    simp [samplesFrom, hi]

/-! ## Decimal numerals and file names -/

theorem digitValue_digitChar (k : Nat) (hk : k < 10) : digitValue (Nat.digitChar k) = k := by
  interval_cases k <;> rfl

theorem toDigitsCore_decimal (fuel : Nat) : ∀ (n : Nat) (ds : List Char), n < fuel →
    ∃ l, Nat.toDigitsCore 10 fuel n ds = l ++ ds ∧ decimalValue l = n := by
  induction fuel with
  | zero => intro n ds h; omega
  | succ fuel ih =>
    intro n ds h
    unfold Nat.toDigitsCore
    by_cases h0 : n / 10 = 0
    · refine ⟨[Nat.digitChar (n % 10)], by simp [h0], ?_⟩
      simp [decimalValue, digitValue_digitChar (n % 10) (Nat.mod_lt _ (by decide))]
      omega
    · obtain ⟨l, hl, hv⟩ := ih (n / 10) (Nat.digitChar (n % 10) :: ds) (by omega)
      refine ⟨l ++ [Nat.digitChar (n % 10)], by simp [h0, hl], ?_⟩
      unfold decimalValue at hv ⊢
      rw [List.foldl_append, hv]
      simp [digitValue_digitChar (n % 10) (Nat.mod_lt _ (by decide))]
      omega

theorem decimalValue_toString (n : Nat) : decimalValue (toString n).data = n := by
  obtain ⟨l, hl, hv⟩ := toDigitsCore_decimal (n + 1) n [] (Nat.lt_succ_self n)
  show decimalValue (Nat.repr n).data = n
  unfold Nat.repr Nat.toDigits
  rw [hl]
  simpa using hv

theorem toString_nat_injective (n m : Nat) (h : toString n = toString m) : n = m := by
  rw [← decimalValue_toString n, ← decimalValue_toString m, h]
theorem inFile_inj (folder : String) (i j : Nat) (h : inFile folder i = inFile folder j) :
    i = j := by
  unfold inFile at h
  have h2 := congrArg String.data h
  simp only [String.data_append, List.append_assoc] at h2
  have h3 := List.append_cancel_right (List.append_cancel_left (List.append_cancel_left h2))
  have h4 : toString (i + 1) = toString (j + 1) := String.ext h3
  have := toString_nat_injective _ _ h4
  omega

theorem outFile_inj (folder : String) (i j : Nat) (h : outFile folder i = outFile folder j) :
    i = j := by
  unfold outFile at h
  have h2 := congrArg String.data h
  simp only [String.data_append, List.append_assoc] at h2
  have h3 := List.append_cancel_right (List.append_cancel_left (List.append_cancel_left h2))
  have h4 : toString (i + 1) = toString (j + 1) := String.ext h3
  have := toString_nat_injective _ _ h4
  omega

theorem inFile_ne_outFile (folder : String) (i j : Nat) : inFile folder i ≠ outFile folder j := by
  intro h
  unfold inFile outFile at h
  have h2 := congrArg String.data h
  simp only [String.data_append, List.append_assoc] at h2
  have h3 := List.append_cancel_left (List.append_cancel_left h2)
  have h4 : (toString (i + 1)).data ++ ['.', 'i', 'n', '.', 't', 'x', 't']
      = ((toString (j + 1)).data ++ ['.']) ++ ['o', 'u', 't', '.', 't', 'x', 't'] := by
    rw [List.append_assoc]
    exact h3
  have h5 := (List.append_inj' h4 rfl).2
  simp at h5

theorem mem_sampleWrites_path (folder : String) (samples : List Sample) :
    ∀ (k : Nat) (p : String), p ∈ (sampleWrites folder k samples).map FsOp.path →
      ∃ j, k ≤ j ∧ (p = inFile folder j ∨ p = outFile folder j) := by
  induction samples with
  | nil => intro k p h; simp [sampleWrites] at h
  | cons s rest ih =>
    intro k p h
    simp only [sampleWrites, List.map_cons, List.mem_cons, FsOp.path] at h
    rcases h with h | h | h
    · exact ⟨k, Nat.le_refl k, Or.inl h⟩
    · exact ⟨k, Nat.le_refl k, Or.inr h⟩
    · obtain ⟨j, hj, hp⟩ := ih (k + 1) p h
      exact ⟨j, by omega, hp⟩

theorem sampleWrites_paths_nodup (folder : String) (samples : List Sample) :
    ∀ k : Nat, ((sampleWrites folder k samples).map FsOp.path).Nodup := by
  induction samples with
  | nil => intro k; simp [sampleWrites]
  | cons s rest ih =>
    intro k
    simp only [sampleWrites, List.map_cons, FsOp.path, List.nodup_cons, List.mem_cons, not_or]
    refine ⟨⟨inFile_ne_outFile folder k k, ?_⟩, ?_, ih (k + 1)⟩
    · intro hmem
      obtain ⟨j, hj, hp | hp⟩ := mem_sampleWrites_path folder rest (k + 1) _ hmem
      · have := inFile_inj folder k j hp
        omega
      · exact inFile_ne_outFile folder k j hp
    · intro hmem
      obtain ⟨j, hj, hp | hp⟩ := mem_sampleWrites_path folder rest (k + 1) _ hmem
      · exact inFile_ne_outFile folder j k hp.symm
      · have := outFile_inj folder k j hp
        omega

theorem sampleWrites_length (folder : String) (samples : List Sample) :
    ∀ k : Nat, (sampleWrites folder k samples).length = 2 * samples.length := by
  induction samples with
  | nil => intro k; rfl
  | cons s rest ih =>
    intro k
    simp only [sampleWrites, List.length_cons, ih (k + 1)]
    omega

theorem sampleWrites_getElem (folder : String) (samples : List Sample) :
    ∀ (k i : Nat) (h : i < samples.length),
      (sampleWrites folder k samples)[2 * i]?
          = some (.writeFile (inFile folder (k + i)) samples[i].Input 0o644)
        ∧ (sampleWrites folder k samples)[2 * i + 1]?
          = some (.writeFile (outFile folder (k + i)) samples[i].Output 0o644) := by
  induction samples with
  | nil => intro k i h; simp at h
  | cons s rest ih =>
    intro k i h
    cases i with
    | zero => simp [sampleWrites]
    | succ i =>
      have hi : i < rest.length := by simpa using h
      have := ih (k + 1) i hi
      have e1 : 2 * (i + 1) = (2 * i) + 1 + 1 := by omega
      have e3 : k + 1 + i = k + (i + 1) := by omega
      rw [e3] at this
      rw [e1]
      simpa [sampleWrites] using this

theorem saveLoop_success (os : Os) (folder : String) (samples : List Sample) :
    ∀ (k : Nat) (fs : FS), (∀ op ∈ sampleWrites folder k samples, os op = none) →
      saveLoop os folder k samples fs = (fs ++ sampleWrites folder k samples, none) := by
  induction samples with
  | nil => intro k fs _; simp [saveLoop, sampleWrites]
  | cons s rest ih =>
    intro k fs h
    have h1 : os (.writeFile (inFile folder k) s.Input 0o644) = none :=
      h _ (by simp [sampleWrites])
    have h2 : os (.writeFile (outFile folder k) s.Output 0o644) = none :=
      h _ (by simp [sampleWrites])
    have h3 : ∀ op ∈ sampleWrites folder (k + 1) rest, os op = none :=
      fun op hop => h op (by simp [sampleWrites, hop])
    simp [saveLoop, WriteFile, h1, h2, ih (k + 1) _ h3, sampleWrites]

/-! ## File writer: the claim -/

/-- C3: when the creation of the directory and every write succeed, `SaveSamples` performs,
after the creation of `folder`, exactly the writes of `folder/sample{i}.in.txt` and
`folder/sample{i}.out.txt` for `i = 1..N` in list order and nothing else: `2N` writes, to
pairwise distinct paths, the `.in` file receiving the `Input` of the `i`-th sample and the
`.out` file its `Output`, unchanged; and it returns no error. -/
theorem SaveSamples_writes (os : Os) (samples : List Sample) (folder : String) (fs : FS)
    (hdir : os (.mkdirAll folder 0o755) = none)
    (hwrites : ∀ op ∈ sampleWrites folder 0 samples, os op = none) :
    SaveSamples os samples folder fs
        = (fs ++ .mkdirAll folder 0o755 :: sampleWrites folder 0 samples, none)
      ∧ (sampleWrites folder 0 samples).length = 2 * samples.length
      ∧ ((sampleWrites folder 0 samples).map FsOp.path).Nodup
      ∧ ∀ (i : Nat) (h : i < samples.length),
          (sampleWrites folder 0 samples)[2 * i]?
              = some (.writeFile (folder ++ "/sample" ++ toString (i + 1) ++ ".in.txt")
                  samples[i].Input 0o644)
            ∧ (sampleWrites folder 0 samples)[2 * i + 1]?
              = some (.writeFile (folder ++ "/sample" ++ toString (i + 1) ++ ".out.txt")
                  samples[i].Output 0o644) := by
  refine ⟨?_, sampleWrites_length folder samples 0, sampleWrites_paths_nodup folder samples 0, ?_⟩
  · simp [SaveSamples, MkdirAll, hdir, saveLoop_success os folder samples 0 _ hwrites]
  · intro i h
    have := sampleWrites_getElem folder samples 0 i h
    simpa [inFile, outFile] using this

/-! ## Contest resolver: lemmas and the claim -/

theorem hasPrefix_contests_abc (link : String) :
    (HasPrefix link "/contests/" && HasPrefix (TrimPrefix link "/contests/") "abc")
      = HasPrefix link "/contests/abc" := by
  by_cases h : HasPrefix link "/contests/" = true
  · have h1 := h
    unfold HasPrefix at h1
    rw [ List.isPrefixOf_iff_prefix] at h1
    obtain ⟨t, ht⟩ := h1
    have htrim : TrimPrefix link "/contests/" = String.mk t := by
      unfold TrimPrefix
      rw [if_pos h, ← ht]
      rfl
    rw [h, htrim]
    unfold HasPrefix
    rw [← ht]
    rfl
  · have h1 : HasPrefix link "/contests/" = false := by simpa using h
    rw [h1, Bool.false_and]
    cases h2 : HasPrefix link "/contests/abc" with
    | false => rfl
    | true =>
      exfalso
      apply h
      unfold HasPrefix at h2 ⊢
      rw [ List.isPrefixOf_iff_prefix] at h2
      obtain ⟨t, ht⟩ := h2
      rw [← ht]
      rfl

theorem scanRows_cons (r : Row) (rest : List Row) :
    scanRows (r :: rest)
      = if isContestRow r then (TrimPrefix (rowLink r) "/contests/", [rowLink r])
        else ((scanRows rest).1, rowLink r :: (scanRows rest).2) := by
  unfold isContestRow
  rw [← hasPrefix_contests_abc]
  by_cases h1 : HasPrefix (rowLink r) "/contests/" = true
  · by_cases h2 : HasPrefix (TrimPrefix (rowLink r) "/contests/") "abc" = true
    · simp [scanRows, h1, h2]
    · simp [scanRows, h1, h2]
  · simp [scanRows, h1]

theorem contestID_ne_empty (r : Row) (h : isContestRow r = true) :
    TrimPrefix (rowLink r) "/contests/" ≠ "" := by
  unfold isContestRow at h
  rw [← hasPrefix_contests_abc, Bool.and_eq_true] at h
  intro he
  rw [he] at h
  exact absurd h.2 (by decide)

theorem scanRows_first_match (before : List Row) (r : Row) (later : List Row)
    (hbefore : ∀ t ∈ before, isContestRow t = false) (hr : isContestRow r = true) :
    scanRows (before ++ r :: later)
      = (TrimPrefix (rowLink r) "/contests/", (before ++ [r]).map rowLink) := by
  induction before with
  | nil => simp [scanRows_cons, hr]
  | cons t rest ih =>
    have ht := hbefore t (List.mem_cons_self _ _)
    have hrest := ih (fun u hu => hbefore u (List.mem_cons_of_mem _ hu))
    rw [List.cons_append, scanRows_cons, hrest]
    simp [ht]

theorem scanRows_eq_empty_iff (rows : List Row) :
    (scanRows rows).1 = "" ↔ ∀ t ∈ rows, isContestRow t = false := by
  induction rows with
  | nil => simp [scanRows]
  | cons r rest ih =>
    rw [scanRows_cons]
    by_cases hr : isContestRow r = true
    · simp [hr, contestID_ne_empty r hr]
    · simp [hr, ih]

/-- C4: on an archive page, `GetMostRecentContestID` returns the identifier (the link with
the leading `/contests/` removed) of the first row, in document order, whose link begins
with `/contests/abc`; the scan stops there, whatever the later rows are; and it returns the
not-found error exactly when no row has such a link. -/
theorem GetMostRecentContestID_first_match (httpGet : HttpGet) (doc : Document)
    (h : httpGet "https://atcoder.jp/contests/archive"
      = .ok { StatusCode := 200, Body := .ok doc }) :
    (∀ before r after, doc.rows = before ++ r :: after →
        (∀ t ∈ before, isContestRow t = false) → isContestRow r = true →
        GetMostRecentContestID httpGet = .ok (TrimPrefix (rowLink r) "/contests/")
          ∧ ∀ later, scanRows (before ++ r :: later)
              = (TrimPrefix (rowLink r) "/contests/", (before ++ [r]).map rowLink))
      ∧ (GetMostRecentContestID httpGet = .error errNoContest
          ↔ ∀ t ∈ doc.rows, isContestRow t = false) := by
  have hG : GetMostRecentContestID httpGet
      = if (scanRows doc.rows).1 = "" then .error errNoContest
        else .ok (scanRows doc.rows).1 := by
    simp [GetMostRecentContestID, h]
  refine ⟨?_, ?_⟩
  · intro before r after hrows hbefore hr
    refine ⟨?_, fun later => scanRows_first_match before r later hbefore hr⟩
    rw [hG, hrows, scanRows_first_match before r after hbefore hr]
    simp [contestID_ne_empty r hr]
  · rw [hG, ← scanRows_eq_empty_iff]
    by_cases he : (scanRows doc.rows).1 = ""
    · simp [he]
    · simp [he]
/-! ## Dispatcher: the range -/

theorem utf8EncodeChar_ne_nil (c : Char) : String.utf8EncodeChar c ≠ [] := by
  intro h
  have h1 := String.length_utf8EncodeChar c
  rw [h] at h1
  have := Char.utf8Size_pos c
  simp at h1
  omega

theorem utf8Bytes_singleton (c : Char) :
    utf8Bytes (String.singleton c) = (String.utf8EncodeChar c).map UInt8.toNat := by
  simp [utf8Bytes, String.singleton]

theorem utf8Bytes_ascii (c : Char) (h : c.toNat < 128) :
    utf8Bytes (String.singleton c) = [c.toNat] := by
  rw [utf8Bytes_singleton]
  unfold String.utf8EncodeChar
  have h0 : c.val.toNat < 128 := h
  have h1 : c.val ≤ 127 := by
    show c.val.toNat ≤ 127
    omega
  rw [if_pos h1]
  show [c.val.toNat % 256] = [c.val.toNat]
  rw [Nat.mod_eq_of_lt (by omega)]

theorem rangeStart_of_head (problems : String) (a : Char)
    (ha : problems.data.head? = some a) :
    rangeStart problems = (utf8Bytes (String.singleton a)).head? := by
  unfold rangeStart
  rw [utf8Bytes_singleton]
  unfold utf8Bytes
  cases hd : problems.data with
  | nil => rw [hd] at ha; simp at ha
  | cons c rest =>
    rw [hd] at ha
    simp only [List.head?_cons, Option.some.injEq] at ha
    subst ha
    cases he : String.utf8EncodeChar c with
    | nil => exact absurd he (utf8EncodeChar_ne_nil c)
    | cons b bs => simp [List.flatMap_cons, he]

theorem rangeEnd_of_getLast (problems : String) (b : Char)
    (hb : problems.data.getLast? = some b) :
    rangeEnd problems = (utf8Bytes (String.singleton b)).getLast? := by
  unfold rangeEnd
  rw [utf8Bytes_singleton]
  unfold utf8Bytes
  obtain ⟨ys, hys⟩ := List.getLast?_eq_some_iff.1 hb
  rw [hys, List.flatMap_append, List.map_append, List.getLast?_append]
  have hne := utf8EncodeChar_ne_nil b
  cases he : String.utf8EncodeChar b with
  | nil => exact absurd he hne
  | cons x xs =>
    have : ([b].flatMap String.utf8EncodeChar) = x :: xs := by simp [List.flatMap_cons, he]
    rw [this]
    cases hl : (List.map UInt8.toNat (x :: xs)).getLast? with
    | none => simp at hl
    | some v => simp

theorem utf8Bytes_lt (s : String) : ∀ n ∈ utf8Bytes s, n < 256 := by
  intro n hn
  unfold utf8Bytes at hn
  rw [List.mem_map] at hn
  obtain ⟨b, _, hb⟩ := hn
  rw [← hb]
  exact b.val.isLt

/-- C8 as stated fails: for the range string `a-é` the last character is `é` (code point
233), but the end of the range is the last *byte* of the string, 169 (the rune `©`). -/
theorem rangeEnd_not_last_character :
    "a-é".data.getLast? = some 'é'
      ∧ rangeEnd "a-é" = some 169
      ∧ rangeEnd "a-é" ≠ ("a-é".data.getLast?).map Char.toNat
      ∧ runeToString 169 = "©" := by
  decide

/-- C8, amended: for a range string with first character `a` and last character `b`, the
range starts at the first byte of the UTF-8 text of `a` and ends at the last byte of the
UTF-8 text of `b`, whatever the characters in between; for an ASCII `a` (resp. `b`) this is
the character itself.  The default `a-g` gives `a` and `g`. -/
theorem range_endpoints (problems : String) (a b : Char)
    (ha : problems.data.head? = some a) (hb : problems.data.getLast? = some b) :
    rangeStart problems = (utf8Bytes (String.singleton a)).head?
      ∧ rangeEnd problems = (utf8Bytes (String.singleton b)).getLast?
      ∧ (a.toNat < 128 → rangeStart problems = some a.toNat)
      ∧ (b.toNat < 128 → rangeEnd problems = some b.toNat)
      ∧ rangeStart "a-g" = some 'a'.toNat ∧ rangeEnd "a-g" = some 'g'.toNat := by
  refine ⟨rangeStart_of_head problems a ha, rangeEnd_of_getLast problems b hb, ?_, ?_,
    by decide, by decide⟩
  · intro h
    rw [rangeStart_of_head problems a ha, utf8Bytes_ascii a h]
    rfl
  · intro h
    rw [rangeEnd_of_getLast problems b hb, utf8Bytes_ascii b h]
    rfl

theorem runeToString_byte (c : Nat) (h : c < 256) :
    runeToString c = String.singleton (Char.ofNat c) := by
  unfold runeToString
  have : c.isValidChar := Or.inl (by omega)
  rw [if_pos this]

theorem toNat_ofNat_byte (c : Nat) (h : c < 256) : (Char.ofNat c).toNat = c := by
  have hv : c.isValidChar := Or.inl (by omega)
  unfold Char.ofNat
  rw [dif_pos hv]
  rfl

theorem problemIDsLoop_eq (fuel : Nat) : ∀ ch stop : Nat, stop + 1 - ch ≤ fuel →
    problemIDsLoop fuel ch stop = (List.range' ch (stop + 1 - ch)).map runeToString := by
  induction fuel with
  | zero =>
    intro ch stop h
    have : stop + 1 - ch = 0 := by omega
    simp [problemIDsLoop, this]
  | succ fuel ih =>
    intro ch stop h
    unfold problemIDsLoop
    by_cases hle : ch ≤ stop
    · have e : stop + 1 - ch = (stop + 1 - (ch + 1)) + 1 := by omega
      rw [if_pos hle, ih (ch + 1) stop (by omega), e, List.range'_succ, List.map_cons]
    · have : stop + 1 - ch = 0 := by omega
      simp [hle, this]

/-- The fuel of `problemIDs` is enough: more iterations launch nothing more. -/
theorem problemIDsLoop_fuel (fuel start stop : Nat) (h : stop + 1 - start ≤ fuel) :
    problemIDsLoop fuel start stop = problemIDs start stop := by
  unfold problemIDs
  rw [problemIDsLoop_eq fuel start stop h, problemIDsLoop_eq _ start stop (Nat.le_refl _)]

theorem problemIDs_eq (start stop : Nat) (hstop : stop < 256) :
    problemIDs start stop
      = (List.range' start (stop + 1 - start)).map fun c => String.singleton (Char.ofNat c) := by
  unfold problemIDs
  rw [problemIDsLoop_eq _ start stop (Nat.le_refl _)]
  apply List.map_congr_left
  intro c hc
  rw [List.mem_range'_1] at hc
  exact runeToString_byte c (by omega)

theorem singleton_ofNat_inj (c d : Nat) (hc : c < 256) (hd : d < 256)
    (h : String.singleton (Char.ofNat c) = String.singleton (Char.ofNat d)) : c = d := by
  have h1 := congrArg String.data h
  simp [String.singleton] at h1
  rw [← toNat_ofNat_byte c hc, ← toNat_ofNat_byte d hd, h1]

theorem problemIDs_nodup (start stop : Nat) (hstop : stop < 256) :
    (problemIDs start stop).Nodup := by
  rw [problemIDs_eq start stop hstop]
  refine List.Nodup.map_on ?_ (List.nodup_range' start _)
  intro c hc d hd h
  rw [List.mem_range'_1] at hc hd
  exact singleton_ofNat_inj c d (by omega) (by omega) h

theorem mem_problemIDs (start stop : Nat) (hstop : stop < 256) (ch : Char) :
    String.singleton ch ∈ problemIDs start stop ↔ start ≤ ch.toNat ∧ ch.toNat ≤ stop := by
  rw [problemIDs_eq start stop hstop, List.mem_map]
  constructor
  · rintro ⟨c, hc, h⟩
    rw [List.mem_range'_1] at hc
    have h1 := congrArg String.data h
    simp [String.singleton] at h1
    rw [← h1, toNat_ofNat_byte c (by omega)]
    omega
  · rintro ⟨h1, h2⟩
    refine ⟨ch.toNat, ?_, ?_⟩
    · rw [List.mem_range'_1]; omega
    · rw [Char.ofNat_toNat]

/-- C7: for range endpoints `start` and `stop` (byte values), the loop of `main` launches
its tasks in ascending order of the character, the `problemID` of each being the
one-character string of that character: exactly one task for every character from `start`
to `stop` inclusive, none for any other character, and none at all when `start > stop`.
These are the tasks of the dispatcher. -/
theorem problemIDs_range (start stop : Nat) (hstop : stop < 256) :
    problemIDs start stop
        = (List.range' start (stop + 1 - start)).map (fun c => String.singleton (Char.ofNat c))
      ∧ (∀ ch : Char, (problemIDs start stop).count (String.singleton ch)
          = if start ≤ ch.toNat ∧ ch.toNat ≤ stop then 1 else 0)
      ∧ (∀ p ∈ problemIDs start stop, ∃ ch : Char, p = String.singleton ch)
      ∧ (stop < start → problemIDs start stop = [])
      ∧ (∀ contestID capacity,
          (initial { contestID := contestID, start := start, stop := stop,
                     capacity := capacity }).tasks.map Task.problemID
            = problemIDs start stop) := by
  refine ⟨problemIDs_eq start stop hstop, ?_, ?_, ?_, ?_⟩
  · intro ch
    by_cases h : start ≤ ch.toNat ∧ ch.toNat ≤ stop
    · rw [if_pos h]
      exact List.count_eq_one_of_mem (problemIDs_nodup start stop hstop)
        ((mem_problemIDs start stop hstop ch).2 h)
    · rw [if_neg h]
      exact List.count_eq_zero_of_not_mem (fun hm => h ((mem_problemIDs start stop hstop ch).1 hm))
  · intro p hp
    rw [problemIDs_eq start stop hstop, List.mem_map] at hp
    obtain ⟨c, _, hc⟩ := hp
    exact ⟨Char.ofNat c, hc.symm⟩
  · intro h
    rw [problemIDs_eq start stop hstop]
    have : stop + 1 - start = 0 := by omega
    simp [this]
  · intro contestID capacity
    simp [initial, Function.comp_def]
/-! ## Dispatcher: steps and invariants -/

theorem step_inv (os : Os) (httpGet : HttpGet) (d : Dispatcher) (s s1 : State) (a : Action)
    (h : step os httpGet d s a = some s1) :
    ∃ (i : Nat) (p : String) (ph ph1 : Phase),
      s.tasks[i]? = some { problemID := p, phase := ph }
        ∧ s1.tasks = s.tasks.set i { problemID := p, phase := ph1 }
        ∧ ((ph = .blocked ∧ ph1 = .active (taskOps os httpGet d.contestID p)
              ∧ s.sem < d.capacity ∧ s1.sem = s.sem + 1 ∧ s1.journal = s.journal)
          ∨ (∃ op rest, ph = .active (op :: rest) ∧ ph1 = .active rest
              ∧ s1.sem = s.sem ∧ s1.journal = s.journal ++ [(p, op)])
          ∨ (ph = .active [] ∧ ph1 = .done
              ∧ 0 < s.sem ∧ s1.sem = s.sem - 1 ∧ s1.journal = s.journal)) := by
  cases a with
  | acquire i =>
    simp only [step] at h
    split at h
    · rename_i p ht
      split at h
      · rename_i hlt
        simp only [Option.some.injEq] at h
        subst h
        exact ⟨i, p, .blocked, _, ht, rfl, Or.inl ⟨rfl, rfl, hlt, rfl, rfl⟩⟩
      · cases h
    · cases h
  | perform i =>
    simp only [step] at h
    split at h
    · rename_i p op rest ht
      simp only [Option.some.injEq] at h
      subst h
      exact ⟨i, p, _, _, ht, rfl, Or.inr (Or.inl ⟨op, rest, rfl, rfl, rfl, rfl⟩)⟩
    · cases h
  | release i =>
    simp only [step] at h
    split at h
    · rename_i p ht
      split at h
      · rename_i hlt
        simp only [Option.some.injEq] at h
        subst h
        exact ⟨i, p, _, .done, ht, rfl, Or.inr (Or.inr ⟨rfl, rfl, hlt, rfl, rfl⟩)⟩
      · cases h
    · cases h

theorem run_invariant (os : Os) (httpGet : HttpGet) (d : Dispatcher) (P : State → Prop)
    (hstep : ∀ s a s1, P s → step os httpGet d s a = some s1 → P s1) :
    ∀ (actions : List Action) (s s1 : State), P s → run os httpGet d s actions = some s1 → P s1 := by
  intro actions
  induction actions with
  | nil =>
    intro s s1 hP h
    simp only [run, Option.some.injEq] at h
    exact h ▸ hP
  | cons a rest ih =>
    intro s s1 hP h
    simp only [run] at h
    split at h
    · rename_i s2 hs2
      exact ih s2 s1 (hstep s a s2 hP hs2) h
    · cases h

theorem step_sem (os : Os) (httpGet : HttpGet) (d : Dispatcher) (s s1 : State) (a : Action)
    (hP : s.sem = activeCount s ∧ s.sem ≤ d.capacity)
    (h : step os httpGet d s a = some s1) :
    s1.sem = activeCount s1 ∧ s1.sem ≤ d.capacity := by
  obtain ⟨i, p, ph, ph1, ht, htasks, hcase⟩ := step_inv os httpGet d s s1 a h
  obtain ⟨hi, hti⟩ := List.getElem?_eq_some_iff.1 ht
  have hcount := List.countP_set Task.isActive s.tasks i { problemID := p, phase := ph1 } hi
  have hle := List.boole_getElem_le_countP Task.isActive s.tasks i hi
  rw [hti] at hcount hle
  unfold activeCount at hP ⊢
  rw [htasks, hcount]
  rcases hcase with ⟨h1, h2, h3, h4, _⟩ | ⟨op, rest, h1, h2, h4, _⟩ | ⟨h1, h2, h3, h4, _⟩
  · subst h1 h2
    have e1 : Task.isActive { problemID := p, phase := .blocked } = false := rfl
    have e2 : Task.isActive
        { problemID := p, phase := .active (taskOps os httpGet d.contestID p) } = true := rfl
    rw [e1, e2]
    simp only [Bool.false_eq_true, if_false, if_true]
    omega
  · subst h1 h2
    have e1 : Task.isActive { problemID := p, phase := .active (op :: rest) } = true := rfl
    have e2 : Task.isActive { problemID := p, phase := .active rest } = true := rfl
    rw [e1] at hle ⊢
    rw [e2]
    simp only [if_true] at hle ⊢
    omega
  · subst h1 h2
    have e1 : Task.isActive { problemID := p, phase := .active [] } = true := rfl
    have e2 : Task.isActive { problemID := p, phase := .done } = false := rfl
    rw [e1] at hle ⊢
    rw [e2]
    simp only [Bool.false_eq_true, if_false, if_true] at hle ⊢
    omega

theorem reachable_sem (os : Os) (httpGet : HttpGet) (d : Dispatcher) (s : State)
    (hs : Reachable os httpGet d s) : s.sem = activeCount s ∧ s.sem ≤ d.capacity := by
  obtain ⟨actions, hrun⟩ := hs
  refine run_invariant os httpGet d (fun s => s.sem = activeCount s ∧ s.sem ≤ d.capacity)
    (fun s a s1 hP h => step_sem os httpGet d s s1 a hP h) actions (initial d) s ?_ hrun
  simp [initial, activeCount, List.countP_map, Function.comp_def, Task.isActive]

theorem countP_le_one_unique {α : Type} (p : α → Bool) (l : List α) (h : l.countP p ≤ 1) :
    ∀ (i j : Nat) (a b : α), l[i]? = some a → l[j]? = some b → p a = true → p b = true →
      i = j := by
  induction l with
  | nil => intro i j a b hi; simp at hi
  | cons x rest ih =>
    intro i j a b hi hj ha hb
    rw [List.countP_cons] at h
    have key : ∀ (k : Nat) (c : α), rest[k]? = some c → p c = true → 1 ≤ rest.countP p := by
      intro k c hk hc
      obtain ⟨hk1, hk2⟩ := List.getElem?_eq_some_iff.1 hk
      have := List.boole_getElem_le_countP p rest k hk1
      rw [hk2, hc, if_pos rfl] at this
      exact this
    cases i with
    | zero =>
      cases j with
      | zero => rfl
      | succ j =>
        simp only [List.getElem?_cons_zero, Option.some.injEq] at hi
        simp only [List.getElem?_cons_succ] at hj
        have h1 := key j b hj hb
        rw [hi, ha, if_pos rfl] at h
        omega
    | succ i =>
      cases j with
      | zero =>
        simp only [List.getElem?_cons_zero, Option.some.injEq] at hj
        simp only [List.getElem?_cons_succ] at hi
        have h1 := key i a hi ha
        rw [hj, hb, if_pos rfl] at h
        omega
      | succ j =>
        simp only [List.getElem?_cons_succ] at hi hj
        have := ih (by omega) i j a b hi hj ha hb
        omega

theorem setup_capacity (httpGet : HttpGet) (contest problems : String) (concurrency : Int)
    (d : Dispatcher) (hd : setup httpGet contest problems concurrency = some d) :
    (d.capacity : Int) = concurrency
      ∧ rangeStart problems = some d.start ∧ rangeEnd problems = some d.stop
      ∧ d.stop < 256 ∧ resolveContest httpGet contest = some d.contestID := by
  unfold setup at hd
  split at hd
  · rename_i cid start stop hcid hstart hstop
    split at hd
    · cases hd
    · rename_i hneg
      simp only [Option.some.injEq] at hd
      subst hd
      refine ⟨by simp; omega, hstart, hstop, ?_, hcid⟩
      unfold rangeEnd at hstop
      exact utf8Bytes_lt problems stop (List.mem_of_getLast?_eq_some hstop)
  · cases hd

/-- C6: in every state the dispatcher can reach, the number of tasks that hold a slot (are
fetching or saving) equals the number of elements in the channel and is at most the
configured concurrency limit; with a limit of 1, no two tasks are active at once. -/
theorem active_le_concurrency (os : Os) (httpGet : HttpGet) (contest problems : String)
    (concurrency : Int) (d : Dispatcher) (s : State)
    (hd : setup httpGet contest problems concurrency = some d)
    (hs : Reachable os httpGet d s) :
    (activeCount s : Int) ≤ concurrency
      ∧ s.sem = activeCount s
      ∧ (concurrency = 1 → ∀ (i j : Nat) (ti tj : Task),
          s.tasks[i]? = some ti → s.tasks[j]? = some tj →
          ti.isActive = true → tj.isActive = true → i = j) := by
  obtain ⟨hsem, hcap⟩ := reachable_sem os httpGet d s hs
  obtain ⟨hc, _⟩ := setup_capacity httpGet contest problems concurrency d hd
  have hle : (activeCount s : Int) ≤ concurrency := by
    rw [← hc, ← hsem]
    exact_mod_cast hcap
  refine ⟨hle, hsem, ?_⟩
  intro h1 i j ti tj hi hj hai haj
  have : activeCount s ≤ 1 := by
    rw [h1] at hle
    exact_mod_cast hle
  exact countP_le_one_unique Task.isActive s.tasks this i j ti tj hi hj hai haj
/-! ## Dispatcher: the journal -/

theorem opsOf_append_single (journal : List (String × FsOp)) (p q : String) (op : FsOp) :
    opsOf (journal ++ [(p, op)]) q
      = if p = q then opsOf journal q ++ [op] else opsOf journal q := by
  unfold opsOf
  by_cases h : p = q
  · simp [List.filter_append, List.filter_cons, h]
  · simp [List.filter_append, List.filter_cons, h]

theorem nodup_index_unique (l : List String) (h : l.Nodup) (i j : Nat) (a : String)
    (hi : l[i]? = some a) (hj : l[j]? = some a) : i = j := by
  obtain ⟨hi1, hi2⟩ := List.getElem?_eq_some_iff.1 hi
  obtain ⟨hj1, hj2⟩ := List.getElem?_eq_some_iff.1 hj
  exact (h.getElem_inj_iff).1 (hi2.trans hj2.symm)

theorem set_same (l : List String) (i : Nat) (a : String) (h : l[i]? = some a) :
    l.set i a = l := by
  apply List.ext_getElem?
  intro k
  rw [List.getElem?_set]
  by_cases hik : i = k
  · subst hik
    obtain ⟨hi1, _⟩ := List.getElem?_eq_some_iff.1 h
    simp [hi1, h]
  · simp [hik]

theorem step_journal (os : Os) (httpGet : HttpGet) (d : Dispatcher)
    (hnodup : (problemIDs d.start d.stop).Nodup) (s s1 : State) (a : Action)
    (hP : JournalOK os httpGet d s) (h : step os httpGet d s a = some s1) :
    JournalOK os httpGet d s1 := by
  obtain ⟨hids, hphase, hmem⟩ := hP
  obtain ⟨i, p, ph, ph1, ht, htasks, hcase⟩ := step_inv os httpGet d s s1 a h
  have hidp : (problemIDs d.start d.stop)[i]? = some p := by
    rw [← hids, List.getElem?_map, ht]
    rfl
  have hi := hphase i _ ht
  simp only at hi
  -- the journal of the other tasks does not change
  have hother : ∀ q : String, q ≠ p → opsOf s1.journal q = opsOf s.journal q := by
    intro q hq
    rcases hcase with ⟨_, _, _, _, hj⟩ | ⟨op, rest, _, _, _, hj⟩ | ⟨_, _, _, _, hj⟩
    · rw [hj]
    · rw [hj, opsOf_append_single, if_neg (fun e => hq e.symm)]
    · rw [hj]
  refine ⟨?_, ?_, ?_⟩
  · rw [htasks, List.map_set, hids]
    exact set_same _ i p hidp
  · intro j t hj
    rw [htasks, List.getElem?_set] at hj
    by_cases hij : i = j
    · subst hij
      rw [if_pos rfl] at hj
      split at hj
      · simp only [Option.some.injEq] at hj
        subst hj
        simp only
        rcases hcase with ⟨h1, h2, _, _, hjn⟩ | ⟨op, rest, h1, h2, _, hjn⟩ | ⟨h1, h2, _, _, hjn⟩
        · subst h1 h2
          simp only [PhaseOK] at hi ⊢
          rw [hjn, hi, List.nil_append]
        · subst h1 h2
          simp only [PhaseOK] at hi ⊢
          rw [hjn, opsOf_append_single, if_pos rfl, List.append_assoc]
          exact hi
        · subst h1 h2
          simp only [PhaseOK] at hi ⊢
          rw [hjn]
          simpa using hi
      · cases hj
    · rw [if_neg hij] at hj
      have hne : t.problemID ≠ p := by
        intro he
        have hjd : (problemIDs d.start d.stop)[j]? = some p := by
          rw [← hids, List.getElem?_map, hj, ← he]
          rfl
        exact hij (nodup_index_unique _ hnodup i j p hidp hjd)
      rw [hother _ hne]
      exact hphase j t hj
  · intro e he
    rcases hcase with ⟨_, _, _, _, hj⟩ | ⟨op, rest, h1, _, _, hj⟩ | ⟨_, _, _, _, hj⟩
    · rw [hj] at he; exact hmem e he
    · rw [hj, List.mem_append, List.mem_singleton] at he
      rcases he with he | he
      · exact hmem e he
      · subst he
        subst h1
        simp only [PhaseOK] at hi
        refine ⟨List.getElem?_mem hidp, ?_⟩
        rw [← hi]
        simp
    · rw [hj] at he; exact hmem e he

theorem reachable_journal (os : Os) (httpGet : HttpGet) (d : Dispatcher)
    (hnodup : (problemIDs d.start d.stop).Nodup) (s : State)
    (hs : Reachable os httpGet d s) : JournalOK os httpGet d s := by
  obtain ⟨actions, hrun⟩ := hs
  refine run_invariant os httpGet d (JournalOK os httpGet d)
    (fun s a s1 hP h => step_journal os httpGet d hnodup s s1 a hP h) actions (initial d) s ?_ hrun
  refine ⟨by simp [initial, Function.comp_def], ?_, by simp [initial]⟩
  intro j t hj
  simp only [initial, List.getElem?_map] at hj
  cases hq : (problemIDs d.start d.stop)[j]? with
  | none => rw [hq] at hj; cases hj
  | some q =>
    rw [hq] at hj
    simp only [Option.map_some', Option.some.injEq] at hj
    subst hj
    simp [PhaseOK, opsOf, initial]

theorem saveLoop_fst_append (os : Os) (folder : String) (samples : List Sample) :
    ∀ (k : Nat) (fs : FS),
      (saveLoop os folder k samples fs).1 = fs ++ (saveLoop os folder k samples []).1 := by
  induction samples with
  | nil => intro k fs; simp [saveLoop]
  | cons s rest ih =>
    intro k fs
    cases h1 : os (.writeFile (inFile folder k) s.Input 0o644) with
    | some err => simp [saveLoop, WriteFile, h1]
    | none =>
      cases h2 : os (.writeFile (outFile folder k) s.Output 0o644) with
      | some err => simp [saveLoop, WriteFile, h1, h2]
      | none =>
        simp only [saveLoop, WriteFile, h1, h2]
        rw [ih (k + 1) (fs ++ _ ++ _), ih (k + 1) ([] ++ _ ++ _)]
        simp

theorem saveLoop_performed (os : Os) (folder : String) (samples : List Sample) :
    ∀ k : Nat, (saveLoop os folder k samples []).1 <+: sampleWrites folder k samples := by
  induction samples with
  | nil => intro k; simp [saveLoop, sampleWrites]
  | cons s rest ih =>
    intro k
    cases h1 : os (.writeFile (inFile folder k) s.Input 0o644) with
    | some err => simp [saveLoop, WriteFile, h1]
    | none =>
      cases h2 : os (.writeFile (outFile folder k) s.Output 0o644) with
      | some err => simp [saveLoop, WriteFile, h1, h2, sampleWrites, List.prefix_cons_inj]
      | none =>
        simp only [saveLoop, WriteFile, h1, h2, sampleWrites]
        rw [saveLoop_fst_append]
        simp only [List.nil_append, List.cons_append]
        rw [List.prefix_cons_inj, List.prefix_cons_inj]
        exact ih (k + 1)

/-- Whatever fails, `SaveSamples` performs a beginning of the operations it is to perform. -/
theorem SaveSamples_performed (os : Os) (samples : List Sample) (folder : String) :
    (SaveSamples os samples folder []).1
      <+: .mkdirAll folder 0o755 :: sampleWrites folder 0 samples := by
  cases h : os (.mkdirAll folder 0o755) with
  | some err => simp [SaveSamples, MkdirAll, h]
  | none =>
    simp only [SaveSamples, MkdirAll, h]
    rw [saveLoop_fst_append]
    simp only [List.nil_append, List.cons_append]
    rw [List.prefix_cons_inj]
    exact saveLoop_performed os folder samples 0

/-- The operations of a task do not depend on the file system it starts from. -/
theorem runTask_eq (os : Os) (httpGet : HttpGet) (contestID problemID : String) (fs : FS) :
    runTask os httpGet contestID problemID fs
      = fs ++ taskOps os httpGet contestID problemID := by
  unfold taskOps runTask
  cases FetchSampleCases httpGet contestID problemID with
  | error err => simp
  | ok samples =>
    simp only
    cases h : os (.mkdirAll ("testcases/" ++ problemID) 0o755) with
    | some err => simp [SaveSamples, MkdirAll, h]
    | none =>
      simp only [SaveSamples, MkdirAll, h]
      rw [saveLoop_fst_append, saveLoop_fst_append os _ samples 0 ([] ++ _)]
      simp

theorem hasPrefix_append (a b : String) : HasPrefix (a ++ b) a = true := by
  unfold HasPrefix
  rw [ List.isPrefixOf_iff_prefix, String.data_append]
  exact List.prefix_append _ _

theorem taskOps_path (os : Os) (httpGet : HttpGet) (contestID problemID : String) (op : FsOp)
    (h : op ∈ taskOps os httpGet contestID problemID) :
    HasPrefix op.path ("testcases/" ++ problemID) = true := by
  unfold taskOps runTask at h
  cases hf : FetchSampleCases httpGet contestID problemID with
  | error err => rw [hf] at h; simp at h
  | ok samples =>
    rw [hf] at h
    simp only at h
    have h1 := (SaveSamples_performed os samples ("testcases/" ++ problemID)).subset h
    rw [List.mem_cons] at h1
    rcases h1 with h1 | h1
    · subst h1
      have := hasPrefix_append ("testcases/" ++ problemID) ""
      simpa [FsOp.path] using this
    · obtain ⟨j, _, hj | hj⟩ := mem_sampleWrites_path _ samples 0 op.path (List.mem_map_of_mem _ h1)
      · rw [hj]
        unfold inFile
        rw [String.append_assoc, String.append_assoc]
        exact hasPrefix_append _ _
      · rw [hj]
        unfold outFile
        rw [String.append_assoc, String.append_assoc]
        exact hasPrefix_append _ _

theorem folder_disjoint (path : String) (a b : Char) (hab : a ≠ b)
    (h : HasPrefix path ("testcases/" ++ String.singleton a) = true) :
    HasPrefix path ("testcases/" ++ String.singleton b) = false := by
  cases hb : HasPrefix path ("testcases/" ++ String.singleton b) with
  | false => rfl
  | true =>
    exfalso
    unfold HasPrefix at h hb
    rw [ List.isPrefixOf_iff_prefix, String.data_append] at h hb
    obtain ⟨t1, ht1⟩ := h
    obtain ⟨t2, ht2⟩ := hb
    rw [← ht2, List.append_assoc, List.append_assoc] at ht1
    have := List.append_cancel_left ht1
    simp [String.singleton] at this
    exact hab this.1

theorem phaseOK_performed (ops performed : List FsOp) (ph : Phase) (h : PhaseOK ops performed ph) :
    performed <+: ops := by
  cases ph with
  | blocked => simp only [PhaseOK] at h; rw [h]; exact List.nil_prefix
  | active pending => simp only [PhaseOK] at h; exact ⟨pending, h⟩
  | done => simp only [PhaseOK] at h; rw [h]

/-! ## Dispatcher: paths on disk -/

theorem taskOps_path_shape (os : Os) (httpGet : HttpGet) (contestID problemID : String)
    (op : FsOp) (h : op ∈ taskOps os httpGet contestID problemID) :
    op.path.data = "testcases/".data ++ problemID.data
      ∨ ∃ rest, op.path.data = "testcases/".data ++ problemID.data ++ '/' :: 's' :: 'a' :: rest := by
  unfold taskOps runTask at h
  cases hf : FetchSampleCases httpGet contestID problemID with
  | error err => rw [hf] at h; simp at h
  | ok samples =>
    rw [hf] at h
    simp only at h
    have h1 := (SaveSamples_performed os samples ("testcases/" ++ problemID)).subset h
    rw [List.mem_cons] at h1
    rcases h1 with h1 | h1
    · subst h1
      exact Or.inl (by simp [FsOp.path, String.data_append])
    · obtain ⟨j, _, hj | hj⟩ :=
        mem_sampleWrites_path _ samples 0 op.path (List.mem_map_of_mem _ h1)
      · refine Or.inr ⟨"mple".data ++ (toString (j + 1)).data ++ ".in.txt".data, ?_⟩
        rw [hj]
        unfold inFile
        simp only [String.data_append, List.append_assoc]
        rfl
      · refine Or.inr ⟨"mple".data ++ (toString (j + 1)).data ++ ".out.txt".data, ?_⟩
        rw [hj]
        unfold outFile
        simp only [String.data_append, List.append_assoc]
        rfl

theorem pathNames_testcases (path : String) (r : List Char)
    (h : path.data = "testcases/".data ++ r) :
    pathNames path
      = "testcases".data
          :: ((splitOnSlash r).1 :: (splitOnSlash r).2).filter
              fun name => name ≠ [] ∧ name ≠ ['.'] := by
  unfold pathNames
  rw [h]
  show (fun x : List Char × List (List Char) =>
      (x.1 :: x.2).filter fun name => name ≠ [] ∧ name ≠ ['.'])
      (splitOnSlash ('t' :: 'e' :: 's' :: 't' :: 'c' :: 'a' :: 's' :: 'e' :: 's' :: '/' :: r)) = _
  simp [splitOnSlash]

theorem not_isUnder_folder (path : String) (a b : Char) (hab : a ≠ b) (hdot : b ≠ '.')
    (hslash : b ≠ '/')
    (h : path.data = "testcases/".data ++ [a]
      ∨ ∃ rest, path.data = "testcases/".data ++ [a] ++ '/' :: 's' :: 'a' :: rest) :
    isUnder ("testcases/" ++ String.singleton b) path = false := by
  have hfolder : pathNames ("testcases/" ++ String.singleton b) = ["testcases".data, [b]] := by
    rw [pathNames_testcases _ [b] (by simp [String.data_append, String.singleton])]
    simp [splitOnSlash, hslash, hdot]
  unfold isUnder
  rw [hfolder]
  have hba : b ≠ a := fun e => hab e.symm
  rcases h with h | ⟨rest, h⟩
  · rw [pathNames_testcases path [a] h]
    by_cases ha1 : a = '/'
    · subst ha1
      simp [splitOnSlash, List.isPrefixOf]
    · by_cases ha2 : a = '.'
      · subst ha2
        simp [splitOnSlash, List.isPrefixOf]
      · simp [splitOnSlash, List.isPrefixOf, ha1, ha2, hba]
  · rw [pathNames_testcases path (a :: '/' :: 's' :: 'a' :: rest) (by rw [h]; simp)]
    by_cases ha1 : a = '/'
    · subst ha1
      simp [splitOnSlash, List.isPrefixOf]
    · by_cases ha2 : a = '.'
      · subst ha2
        simp [splitOnSlash, List.isPrefixOf]
      · simp [splitOnSlash, List.isPrefixOf, ha1, ha2, hba]
/-! ## Dispatcher: progress -/

theorem sum_map_set {α : Type} (f : α → Nat) (l : List α) :
    ∀ (i : Nat) (x : α) (h : i < l.length),
      ((l.set i x).map f).sum + f l[i] = (l.map f).sum + f x := by
  induction l with
  | nil => intro i x h; simp at h
  | cons y rest ih =>
    intro i x h
    cases i with
    | zero => simp; omega
    | succ i =>
      have hi : i < rest.length := by simpa using h
      have := ih i x hi
      simp only [List.set_cons_succ, List.map_cons, List.sum_cons, List.getElem_cons_succ]
      omega

theorem step_stepsLeft (os : Os) (httpGet : HttpGet) (d : Dispatcher) (s s1 : State)
    (a : Action) (h : step os httpGet d s a = some s1) :
    stepsLeft os httpGet d s1 + 1 = stepsLeft os httpGet d s := by
  obtain ⟨i, p, ph, ph1, ht, htasks, hcase⟩ := step_inv os httpGet d s s1 a h
  obtain ⟨hi, hti⟩ := List.getElem?_eq_some_iff.1 ht
  have hsum := sum_map_set (Task.stepsLeft os httpGet d.contestID) s.tasks i
    { problemID := p, phase := ph1 } hi
  rw [hti] at hsum
  unfold stepsLeft
  rw [htasks]
  rcases hcase with ⟨h1, h2, _⟩ | ⟨op, rest, h1, h2, _⟩ | ⟨h1, h2, _⟩
  · subst h1 h2
    simp only [Task.stepsLeft] at hsum
    omega
  · subst h1 h2
    simp only [Task.stepsLeft, List.length_cons] at hsum
    omega
  · subst h1 h2
    simp only [Task.stepsLeft, List.length_nil] at hsum
    omega

theorem run_stepsLeft (os : Os) (httpGet : HttpGet) (d : Dispatcher) :
    ∀ (actions : List Action) (s s1 : State), run os httpGet d s actions = some s1 →
      stepsLeft os httpGet d s1 + actions.length = stepsLeft os httpGet d s := by
  intro actions
  induction actions with
  | nil =>
    intro s s1 h
    simp only [run, Option.some.injEq] at h
    simp [h]
  | cons a rest ih =>
    intro s s1 h
    simp only [run] at h
    split at h
    · rename_i s2 hs2
      have h1 := ih s2 s1 h
      have h2 := step_stepsLeft os httpGet d s s2 a hs2
      simp only [List.length_cons]
      omega
    · cases h

theorem run_append (os : Os) (httpGet : HttpGet) (d : Dispatcher) :
    ∀ (as bs : List Action) (s s1 s2 : State), run os httpGet d s as = some s1 →
      run os httpGet d s1 bs = some s2 → run os httpGet d s (as ++ bs) = some s2 := by
  intro as
  induction as with
  | nil =>
    intro bs s s1 s2 h1 h2
    simp only [run, Option.some.injEq] at h1
    rw [h1]
    exact h2
  | cons a rest ih =>
    intro bs s s1 s2 h1 h2
    simp only [run] at h1
    split at h1
    · rename_i s3 hs3
      have h3 := ih bs s3 s1 s2 h1 h2
      simp only [List.cons_append, run, hs3]
      exact h3
    · cases h1

theorem exists_run_atRest (os : Os) (httpGet : HttpGet) (d : Dispatcher) :
    ∀ (n : Nat) (s : State), stepsLeft os httpGet d s = n →
      ∃ (actions : List Action) (s1 : State),
        run os httpGet d s actions = some s1 ∧ AtRest os httpGet d s1 := by
  intro n
  induction n using Nat.strong_induction_on with
  | _ n ih =>
    intro s hn
    by_cases hrest : AtRest os httpGet d s
    · exact ⟨[], s, rfl, hrest⟩
    · unfold AtRest at hrest
      push_neg at hrest
      obtain ⟨a, ha⟩ := hrest
      obtain ⟨s2, hs2⟩ := Option.ne_none_iff_exists'.1 ha
      have hlt := step_stepsLeft os httpGet d s s2 a hs2
      obtain ⟨actions, s1, hrun, h1⟩ := ih (stepsLeft os httpGet d s2) (by omega) s2 rfl
      refine ⟨a :: actions, s1, ?_, h1⟩
      simp only [run, hs2]
      exact hrun

theorem atRest_done (os : Os) (httpGet : HttpGet) (d : Dispatcher) (s : State)
    (hsem : s.sem = activeCount s) (hcap : 1 ≤ d.capacity) (hrest : AtRest os httpGet d s) :
    ∀ (i : Nat) (t : Task), s.tasks[i]? = some t → t.phase = .done := by
  -- no task is active: it could perform or return
  have hactive : ∀ (i : Nat) (t : Task), s.tasks[i]? = some t → t.isActive = false := by
    intro i t ht
    cases hph : t.phase with
    | blocked => simp [Task.isActive, hph]
    | done => simp [Task.isActive, hph]
    | active pending =>
      exfalso
      obtain ⟨p, ph⟩ := t
      simp only at hph
      subst hph
      cases pending with
      | cons op rest =>
        have := hrest (.perform i)
        simp [step, ht] at this
      | nil =>
        have hpos : 0 < s.sem := by
          obtain ⟨hi, hti⟩ := List.getElem?_eq_some_iff.1 ht
          have := List.boole_getElem_le_countP Task.isActive s.tasks i hi
          rw [hti] at this
          have e : Task.isActive { problemID := p, phase := .active [] } = true := rfl
          rw [e, if_pos rfl] at this
          rw [hsem]
          exact this
        have := hrest (.release i)
        simp [step, ht, hpos] at this
  have hzero : s.sem = 0 := by
    rw [hsem]
    unfold activeCount
    rw [List.countP_eq_zero]
    intro t ht
    obtain ⟨i, hi⟩ := List.mem_iff_getElem?.1 ht
    simp [hactive i t hi]
  intro i t ht
  cases hph : t.phase with
  | done => rfl
  | active pending =>
    have := hactive i t ht
    simp [Task.isActive, hph] at this
  | blocked =>
    exfalso
    obtain ⟨p, ph⟩ := t
    simp only at hph
    subst hph
    have := hrest (.acquire i)
    have hlt : s.sem < d.capacity := by omega
    simp [step, ht, hlt] at this

theorem reachable_no_slot (os : Os) (httpGet : HttpGet) (d : Dispatcher) (s : State)
    (hcap : d.capacity = 0) (hs : Reachable os httpGet d s) : s = initial d := by
  obtain ⟨actions, hrun⟩ := hs
  cases actions with
  | nil =>
    simp only [run, Option.some.injEq] at hrun
    exact hrun.symm
  | cons a rest =>
    exfalso
    simp only [run] at hrun
    split at hrun
    · rename_i s2 hs2
      obtain ⟨i, p, ph, ph1, ht, _, hcase⟩ := step_inv os httpGet d (initial d) s2 a hs2
      simp only [initial, List.getElem?_map] at ht
      cases hq : (problemIDs d.start d.stop)[i]? with
      | none => rw [hq] at ht; cases ht
      | some q =>
        rw [hq] at ht
        simp only [Option.map_some', Option.some.injEq, Task.mk.injEq] at ht
        obtain ⟨_, hph⟩ := ht
        rcases hcase with ⟨_, _, hlt, _⟩ | ⟨op, rest, h1, _⟩ | ⟨h1, _⟩
        · simp only [initial] at hlt
          omega
        · rw [h1] at hph; cases hph
        · rw [h1] at hph; cases hph
    · cases hrun
/-! ## Dispatcher: isolation of failures -/

theorem problemID_singleton (d : Dispatcher) (hstop : d.stop < 256) (p : String)
    (hp : p ∈ problemIDs d.start d.stop) : ∃ ch : Char, p = String.singleton ch :=
  (problemIDs_range d.start d.stop hstop).2.2.1 p hp

/-- C9 as stated fails: for the range `./` with the page of `.` missing and the page of `/`
present, the task of `/` creates `testcases//` and writes `testcases///sample1.in.txt`,
which on disk are the directory `testcases/.` of the failing letter and a file in it. -/
theorem failing_folder_written :
    setup slashNet "abc360" "./" 1 = some slashDispatcher
      ∧ run exampleOs slashNet slashDispatcher (initial slashDispatcher) slashRun
        = some slashFinal
      ∧ FetchSampleCases slashNet "abc360" "." = .error "problem . not found (404)"
      ∧ ("/", FsOp.mkdirAll "testcases//" 0o755) ∈ slashFinal.journal
      ∧ ("/", FsOp.writeFile "testcases///sample1.in.txt" "1 2\n" 0o644) ∈ slashFinal.journal
      ∧ isUnder "testcases/." "testcases//" = true
      ∧ isUnder "testcases/." "testcases///sample1.in.txt" = true :=
  ⟨by decide, by decide, rfl, by decide, by decide, by decide, by decide⟩

/-- C9, amended: in every state the dispatcher can reach, a task whose extraction fails has
performed no file-system operation, no operation of any task is about a path that begins
with its folder `testcases/<letter>`, and, when the letter is neither `.` nor `/`, none is
about a path that on disk is that folder or lies below it.  A task whose extraction
succeeds has performed a beginning of the operations of `SaveSamples` for its own samples
and folder, and all of them once it is done.  Every run is finite and can be continued
until no task can take a step; with a concurrency limit of at least 1 every task is then
done, so the samples of every successful letter are saved.  What a task has written when it
is done, or when the run has come to rest, is the same in any other run over any other
range: the failing letters change nothing for the others. -/
theorem failure_isolated (os : Os) (httpGet : HttpGet) (contest problems : String)
    (concurrency : Int) (d : Dispatcher) (s : State)
    (hd : setup httpGet contest problems concurrency = some d)
    (hs : Reachable os httpGet d s)
    (i : Nat) (t : Task) (ht : s.tasks[i]? = some t) :
    (∀ err, FetchSampleCases httpGet d.contestID t.problemID = .error err →
        opsOf s.journal t.problemID = []
          ∧ (∀ e ∈ s.journal, HasPrefix e.2.path ("testcases/" ++ t.problemID) = false)
          ∧ (t.problemID ≠ "." → t.problemID ≠ "/" →
              ∀ e ∈ s.journal, isUnder ("testcases/" ++ t.problemID) e.2.path = false))
      ∧ (∀ samples, FetchSampleCases httpGet d.contestID t.problemID = .ok samples →
        opsOf s.journal t.problemID
            <+: (SaveSamples os samples ("testcases/" ++ t.problemID) []).1
          ∧ (t.phase = .done → opsOf s.journal t.problemID
              = (SaveSamples os samples ("testcases/" ++ t.problemID) []).1)
          ∧ (1 ≤ concurrency → AtRest os httpGet d s → opsOf s.journal t.problemID
              = (SaveSamples os samples ("testcases/" ++ t.problemID) []).1))
      ∧ (∀ (problems1 : String) (concurrency1 : Int) (d1 : Dispatcher) (s1 : State)
          (j : Nat) (t1 : Task),
          setup httpGet contest problems1 concurrency1 = some d1 →
          Reachable os httpGet d1 s1 → s1.tasks[j]? = some t1 →
          t1.problemID = t.problemID → t.phase = .done → t1.phase = .done →
          opsOf s1.journal t.problemID = opsOf s.journal t.problemID)
      ∧ (∀ (actions : List Action) (s1 : State), run os httpGet d s actions = some s1 →
          actions.length ≤ stepsLeft os httpGet d s)
      ∧ (∃ (actions : List Action) (s1 : State),
          run os httpGet d s actions = some s1 ∧ AtRest os httpGet d s1)
      ∧ (1 ≤ concurrency → AtRest os httpGet d s → t.phase = .done)
      ∧ (∀ (problems1 : String) (d1 : Dispatcher) (s1 : State) (j : Nat) (t1 : Task),
          setup httpGet contest problems1 concurrency = some d1 →
          Reachable os httpGet d1 s1 → s1.tasks[j]? = some t1 →
          t1.problemID = t.problemID → AtRest os httpGet d s → AtRest os httpGet d1 s1 →
          opsOf s1.journal t.problemID = opsOf s.journal t.problemID) := by
  obtain ⟨hcapacity, _, _, hstop, hcid⟩ :=
    setup_capacity httpGet contest problems concurrency d hd
  have hnodup := problemIDs_nodup d.start d.stop hstop
  obtain ⟨hids, hphase, hmem⟩ := reachable_journal os httpGet d hnodup s hs
  obtain ⟨hsem, _⟩ := reachable_sem os httpGet d s hs
  have hti := hphase i t ht
  have htmem : t.problemID ∈ problemIDs d.start d.stop := by
    rw [← hids]
    exact List.mem_map_of_mem _ (List.getElem?_mem ht)
  have hdone : 1 ≤ concurrency → AtRest os httpGet d s → t.phase = .done := by
    intro hc hrest
    have hcap : 1 ≤ d.capacity := by
      have : (1 : Int) ≤ (d.capacity : Int) := by rw [hcapacity]; exact hc
      exact_mod_cast this
    exact atRest_done os httpGet d s hsem hcap hrest i t ht
  -- what a finished task has written, in any run
  have hcompare : ∀ (problems1 : String) (concurrency1 : Int) (d1 : Dispatcher) (s1 : State)
      (j : Nat) (t1 : Task),
      setup httpGet contest problems1 concurrency1 = some d1 →
      Reachable os httpGet d1 s1 → s1.tasks[j]? = some t1 →
      t1.problemID = t.problemID → t.phase = .done → t1.phase = .done →
      opsOf s1.journal t.problemID = opsOf s.journal t.problemID := by
    intro problems1 concurrency1 d1 s1 j t1 hd1 hs1 ht1 hid hdone0 hdone1
    obtain ⟨_, _, _, hstop1, hcid1⟩ :=
      setup_capacity httpGet contest problems1 concurrency1 d1 hd1
    have hnodup1 := problemIDs_nodup d1.start d1.stop hstop1
    obtain ⟨_, hphase1, _⟩ := reachable_journal os httpGet d1 hnodup1 s1 hs1
    have ht1i := hphase1 j t1 ht1
    have hc : d1.contestID = d.contestID := by
      rw [hcid] at hcid1
      exact (Option.some.inj hcid1).symm
    rw [hdone1, hid, hc] at ht1i
    have hti0 := hti
    rw [hdone0] at hti0
    simp only [PhaseOK] at hti0 ht1i
    rw [hti0, ht1i]
  refine ⟨?_, ?_, hcompare, ?_, ?_, hdone, ?_⟩
  · intro err herr
    have hops : taskOps os httpGet d.contestID t.problemID = [] := by
      simp [taskOps, runTask, herr]
    have hti0 := hti
    rw [hops] at hti0
    have hnil := phaseOK_performed _ _ _ hti0
    obtain ⟨b, hb⟩ := problemID_singleton d hstop t.problemID htmem
    -- an operation of the journal belongs to another letter
    have hletter : ∀ e ∈ s.journal, ∃ a : Char, e.1 = String.singleton a ∧ a ≠ b := by
      intro e he
      obtain ⟨he1, he2⟩ := hmem e he
      obtain ⟨a, ha⟩ := problemID_singleton d hstop e.1 he1
      refine ⟨a, ha, ?_⟩
      intro hab
      rw [ha, hab, ← hb, hops] at he2
      simp at he2
    refine ⟨List.prefix_nil.1 hnil, ?_, ?_⟩
    · intro e he
      obtain ⟨a, ha, hab⟩ := hletter e he
      have hpath := taskOps_path os httpGet d.contestID e.1 e.2 (hmem e he).2
      rw [hb]
      rw [ha] at hpath
      exact folder_disjoint e.2.path a b hab hpath
    · intro hdot hslash e he
      obtain ⟨a, ha, hab⟩ := hletter e he
      have hshape := taskOps_path_shape os httpGet d.contestID e.1 e.2 (hmem e he).2
      rw [ha] at hshape
      have hbdot : b ≠ '.' := by
        intro hc
        apply hdot
        rw [hb, hc]
        rfl
      have hbslash : b ≠ '/' := by
        intro hc
        apply hslash
        rw [hb, hc]
        rfl
      rw [hb]
      exact not_isUnder_folder e.2.path a b hab hbdot hbslash hshape
  · intro samples hok
    have hops : taskOps os httpGet d.contestID t.problemID
        = (SaveSamples os samples ("testcases/" ++ t.problemID) []).1 := by
      simp [taskOps, runTask, hok]
    have hti0 := hti
    rw [hops] at hti0
    have hwhen : t.phase = .done → opsOf s.journal t.problemID
        = (SaveSamples os samples ("testcases/" ++ t.problemID) []).1 := by
      intro hph
      rw [hph] at hti0
      exact hti0
    exact ⟨phaseOK_performed _ _ _ hti0, hwhen, fun hc hrest => hwhen (hdone hc hrest)⟩
  · intro actions s1 hrun
    have := run_stepsLeft os httpGet d actions s s1 hrun
    omega
  · exact exists_run_atRest os httpGet d _ s rfl
  · intro problems1 d1 s1 j t1 hd1 hs1 ht1 hid hrest hrest1
    obtain ⟨hcapacity1, _, _, _, _⟩ :=
      setup_capacity httpGet contest problems1 concurrency d1 hd1
    by_cases hc : 1 ≤ concurrency
    · have hcap1 : 1 ≤ d1.capacity := by
        have : (1 : Int) ≤ (d1.capacity : Int) := by rw [hcapacity1]; exact hc
        exact_mod_cast this
      obtain ⟨hsem1, _⟩ := reachable_sem os httpGet d1 s1 hs1
      exact hcompare problems1 concurrency d1 s1 j t1 hd1 hs1 ht1 hid (hdone hc hrest)
        (atRest_done os httpGet d1 s1 hsem1 hcap1 hrest1 j t1 ht1)
    · have hz : d.capacity = 0 := by
        have : (d.capacity : Int) < 1 := by rw [hcapacity]; omega
        omega
      have hz1 : d1.capacity = 0 := by
        have : (d1.capacity : Int) < 1 := by rw [hcapacity1]; omega
        omega
      rw [reachable_no_slot os httpGet d s hz hs, reachable_no_slot os httpGet d1 s1 hz1 hs1]
      rfl

/-! ## Sample extractor: the status of the response -/

theorem digitChar_ne_minus (k : Nat) (hk : k < 10) : Nat.digitChar k ≠ '-' := by
  interval_cases k <;> decide

theorem toDigitsCore_no_minus (fuel : Nat) : ∀ (n : Nat) (ds : List Char),
    (∀ c ∈ ds, c ≠ '-') → ∀ c ∈ Nat.toDigitsCore 10 fuel n ds, c ≠ '-' := by
  induction fuel with
  | zero => intro n ds h; simpa [Nat.toDigitsCore] using h
  | succ fuel ih =>
    intro n ds h
    have hd : ∀ c ∈ Nat.digitChar (n % 10) :: ds, c ≠ '-' := by
      intro c hc
      rw [List.mem_cons] at hc
      rcases hc with hc | hc
      · rw [hc]; exact digitChar_ne_minus _ (Nat.mod_lt _ (by decide))
      · exact h c hc
    unfold Nat.toDigitsCore
    by_cases h0 : n / 10 = 0
    · simpa [h0] using hd
    · simpa [h0] using ih (n / 10) _ hd

theorem toString_nat_no_minus (n : Nat) : ∀ c ∈ (toString n).data, c ≠ '-' := by
  show ∀ c ∈ (Nat.repr n).data, c ≠ '-'
  unfold Nat.repr Nat.toDigits
  simpa using toDigitsCore_no_minus (n + 1) n [] (by simp)

theorem toString_int_injective (a b : Int) (h : toString a = toString b) : a = b := by
  have hneg : ∀ (m n : Nat), toString m ≠ "-" ++ toString (n + 1) := by
    intro m n he
    have h1 := toString_nat_no_minus m '-'
    rw [he, String.data_append] at h1
    exact h1 (by simp) rfl
  cases a with
  | ofNat m =>
    cases b with
    | ofNat n =>
      have : toString m = toString n := h
      rw [toString_nat_injective m n this]
    | negSucc n => exact absurd h (hneg m n)
  | negSucc m =>
    cases b with
    | ofNat n => exact absurd h.symm (hneg n m)
    | negSucc n =>
      have h1 : "-" ++ toString (m + 1) = "-" ++ toString (n + 1) := h
      have h2 := congrArg String.data h1
      rw [String.data_append, String.data_append] at h2
      have h3 : toString (m + 1) = toString (n + 1) := String.ext (List.append_cancel_left h2)
      have := toString_nat_injective _ _ h3
      have hmn : m = n := by omega
      rw [hmn]

theorem append_left_injective (a x y : String) (h : a ++ x = a ++ y) : x = y := by
  have h2 := congrArg String.data h
  rw [String.data_append, String.data_append] at h2
  exact String.ext (List.append_cancel_left h2)

theorem append_right_injective (a x y : String) (h : x ++ a = y ++ a) : x = y := by
  have h2 := congrArg String.data h
  rw [String.data_append, String.data_append] at h2
  exact String.ext (List.append_cancel_right h2)

/-- C5: for a problem page answered with status `s`, `FetchSampleCases` returns the error
`problem <problemID> not found (404)` when `s = 404`, the error
`unexpected status code <s>` when `s` is neither 404 nor 200, no samples in either case,
and an error of one of these two forms exactly when `s` is not 200.  The first form names
this problem and no other and is returned only for 404; the second carries the status of
the response and no other number. -/
theorem FetchSampleCases_status (httpGet : HttpGet) (contestID problemID : String)
    (resp : Response) (h : httpGet (problemURL contestID problemID) = .ok resp) :
    (resp.StatusCode = 404 →
        FetchSampleCases httpGet contestID problemID
          = .error ("problem " ++ problemID ++ " not found (404)"))
      ∧ (resp.StatusCode ≠ 404 → resp.StatusCode ≠ 200 →
        FetchSampleCases httpGet contestID problemID
          = .error ("unexpected status code " ++ toString resp.StatusCode))
      ∧ (resp.StatusCode ≠ 200 →
        ∀ samples, FetchSampleCases httpGet contestID problemID ≠ .ok samples)
      ∧ ((FetchSampleCases httpGet contestID problemID
              = .error ("problem " ++ problemID ++ " not found (404)")
            ∨ ∃ code : Int, FetchSampleCases httpGet contestID problemID
              = .error ("unexpected status code " ++ toString code))
          ↔ resp.StatusCode ≠ 200)
      ∧ (∀ name : String, FetchSampleCases httpGet contestID problemID
              = .error ("problem " ++ name ++ " not found (404)") →
          name = problemID ∧ resp.StatusCode = 404)
      ∧ (∀ code : Int, FetchSampleCases httpGet contestID problemID
              = .error ("unexpected status code " ++ toString code) →
          code = resp.StatusCode ∧ resp.StatusCode ≠ 404 ∧ resp.StatusCode ≠ 200) := by
  have h404 : resp.StatusCode = 404 →
      FetchSampleCases httpGet contestID problemID
        = .error ("problem " ++ problemID ++ " not found (404)") := by
    intro hs
    simp [FetchSampleCases, h, hs, errProblemNotFound]
  have hother : resp.StatusCode ≠ 404 → resp.StatusCode ≠ 200 →
      FetchSampleCases httpGet contestID problemID
        = .error ("unexpected status code " ++ toString resp.StatusCode) := by
    intro hs1 hs2
    simp [FetchSampleCases, h, hs1, hs2, errUnexpectedStatus]
  have h200 : resp.StatusCode = 200 →
      (∃ samples, FetchSampleCases httpGet contestID problemID = .ok samples)
        ∨ ∃ err, FetchSampleCases httpGet contestID problemID
            = .error ("failed to parse HTML: " ++ err) := by
    intro hs
    cases hb : resp.Body with
    | ok doc =>
      exact Or.inl ⟨scanSections doc.sections, by simp [FetchSampleCases, h, hs, hb]⟩
    | error err => exact Or.inr ⟨err, by simp [FetchSampleCases, h, hs, hb]⟩
  -- the three kinds of message differ in their first character
  have hpu : ∀ (name : String) (code : Int),
      "problem " ++ name ++ " not found (404)" ≠ "unexpected status code " ++ toString code := by
    intro name code he
    rw [String.append_assoc] at he
    exact append_ne_of_head _ _ _ _ 'p' 'u' _ _ rfl rfl (by decide) he
  have hfp : ∀ (err name : String),
      "failed to parse HTML: " ++ err ≠ "problem " ++ name ++ " not found (404)" := by
    intro err name he
    rw [String.append_assoc] at he
    exact append_ne_of_head _ _ _ _ 'f' 'p' _ _ rfl rfl (by decide) he
  have hfu : ∀ (err : String) (code : Int),
      "failed to parse HTML: " ++ err ≠ "unexpected status code " ++ toString code := by
    intro err code he
    exact append_ne_of_head _ _ _ _ 'f' 'u' _ _ rfl rfl (by decide) he
  have hname : ∀ name : String, FetchSampleCases httpGet contestID problemID
        = .error ("problem " ++ name ++ " not found (404)") →
      name = problemID ∧ resp.StatusCode = 404 := by
    intro name hF
    by_cases hs1 : resp.StatusCode = 404
    · rw [h404 hs1] at hF
      have h1 := Except.error.inj hF
      have h2 := append_left_injective _ _ _ (append_right_injective _ _ _ h1)
      exact ⟨h2.symm, hs1⟩
    · by_cases hs2 : resp.StatusCode = 200
      · rcases h200 hs2 with ⟨samples, hok⟩ | ⟨err, herr⟩
        · rw [hok] at hF; cases hF
        · rw [herr] at hF
          exact absurd (Except.error.inj hF) (hfp err name)
      · rw [hother hs1 hs2] at hF
        exact absurd (Except.error.inj hF).symm (hpu name _)
  have hcode : ∀ code : Int, FetchSampleCases httpGet contestID problemID
        = .error ("unexpected status code " ++ toString code) →
      code = resp.StatusCode ∧ resp.StatusCode ≠ 404 ∧ resp.StatusCode ≠ 200 := by
    intro code hF
    by_cases hs1 : resp.StatusCode = 404
    · rw [h404 hs1] at hF
      exact absurd (Except.error.inj hF) (hpu problemID code)
    · by_cases hs2 : resp.StatusCode = 200
      · rcases h200 hs2 with ⟨samples, hok⟩ | ⟨err, herr⟩
        · rw [hok] at hF; cases hF
        · rw [herr] at hF
          exact absurd (Except.error.inj hF) (hfu err code)
      · rw [hother hs1 hs2] at hF
        have h1 := append_left_injective _ _ _ (Except.error.inj hF)
        exact ⟨(toString_int_injective _ _ h1).symm, hs1, hs2⟩
  refine ⟨h404, hother, ?_, ⟨?_, ?_⟩, hname, hcode⟩
  · intro hs samples
    by_cases hs1 : resp.StatusCode = 404
    · rw [h404 hs1]; simp
    · rw [hother hs1 hs]; simp
  · rintro (hF | ⟨code, hF⟩)
    · intro hs
      have := (hname problemID hF).2
      omega
    · exact (hcode code hF).2.2
  · intro hs
    by_cases hs1 : resp.StatusCode = 404
    · exact Or.inl (h404 hs1)
    · exact Or.inr ⟨resp.StatusCode, hother hs1 hs⟩

/-! ## The claims on concrete inputs -/

/-- C1 on the example page: two samples, in page order, the other sections ignored. -/
theorem scanSections_alternating_witness :
    examplePage.sections.filter isSampleSection
        = alternating
            [ ({ heading := "Sample Input 1", text := "1 2\n" },
               { heading := "Sample Output 1", text := "3\n" }),
              ({ heading := "Sample Input 2", text := "5 7\n" },
               { heading := "Sample Output 2", text := "12\n" }) ]
      ∧ scanSections examplePage.sections
        = [{ Input := "1 2\n", Output := "3\n" }, { Input := "5 7\n", Output := "12\n" }] :=
  ⟨by decide,
    (scanSections_alternating examplePage.sections
      [ ({ heading := "Sample Input 1", text := "1 2\n" },
         { heading := "Sample Output 1", text := "3\n" }),
        ({ heading := "Sample Input 2", text := "5 7\n" },
         { heading := "Sample Output 2", text := "12\n" }) ]
      (by decide) (by decide)).1⟩

/-- C2 on a page that starts with an output section. -/
theorem scanSections_output_without_input_witness :
    isOutputHeading { heading := "Sample Output 1", text := "3\n" } = true
      ∧ (scanSections
          ([{ heading := "Problem Statement", text := "" }]
            ++ { heading := "Sample Output 1", text := "3\n" }
              :: [{ heading := "Sample Input 2", text := "5 7\n" },
                  { heading := "Sample Output 2", text := "12\n" }]))[0]?
        = some { Input := "", Output := "3\n" } :=
  ⟨by decide,
    (scanSections_output_without_input [{ heading := "Problem Statement", text := "" }]
      [{ heading := "Sample Input 2", text := "5 7\n" },
       { heading := "Sample Output 2", text := "12\n" }]
      { heading := "Sample Output 1", text := "3\n" } (by decide) (by decide)).1⟩

/-- C10 on a page with two consecutive output sections. -/
theorem scanSections_one_per_output_witness :
    (scanSections
        [ { heading := "Sample Input 1", text := "1 2\n" },
          { heading := "Sample Output 1", text := "3\n" },
          { heading := "Sample Output 2", text := "12\n" },
          { heading := "Sample Input 3", text := "5 7\n" } ])[1]?
      = some { Input := "1 2\n", Output := "12\n" } :=
  ((scanSections_one_per_output
      [ { heading := "Sample Input 1", text := "1 2\n" },
        { heading := "Sample Output 1", text := "3\n" },
        { heading := "Sample Output 2", text := "12\n" },
        { heading := "Sample Input 3", text := "5 7\n" } ]).2.2.1
    [{ heading := "Sample Input 1", text := "1 2\n" }]
    { heading := "Sample Output 1", text := "3\n" }
    { heading := "Sample Output 2", text := "12\n" }
    [{ heading := "Sample Input 3", text := "5 7\n" }] rfl (by decide) (by decide)).2

/-- C5 on a missing page (404) and on a server error (500). -/
theorem FetchSampleCases_status_witness :
    exampleNet (problemURL "abc360" "b")
        = .ok { StatusCode := 404, Body := .ok { sections := [], rows := [] } }
      ∧ FetchSampleCases exampleNet "abc360" "b" = .error "problem b not found (404)"
      ∧ FetchSampleCases brokenNet "abc360" "a" = .error "unexpected status code 500" :=
  ⟨rfl,
    (FetchSampleCases_status exampleNet "abc360" "b"
      { StatusCode := 404, Body := .ok { sections := [], rows := [] } } rfl).1 rfl,
    (FetchSampleCases_status brokenNet "abc360" "a"
      { StatusCode := 500, Body := .error "unexpected EOF" } rfl).2.1 (by decide) (by decide)⟩
/-- C3 on one sample. -/
theorem SaveSamples_writes_witness :
    exampleOs (.mkdirAll "testcases/a" 0o755) = none
      ∧ SaveSamples exampleOs [{ Input := "1 2\n", Output := "3\n" }] "testcases/a" []
        = ([ .mkdirAll "testcases/a" 0o755,
             .writeFile "testcases/a/sample1.in.txt" "1 2\n" 0o644,
             .writeFile "testcases/a/sample1.out.txt" "3\n" 0o644 ], none) :=
  ⟨rfl,
    (SaveSamples_writes exampleOs [{ Input := "1 2\n", Output := "3\n" }] "testcases/a" []
      rfl (fun _ _ => rfl)).1⟩

/-- C4 on the example archive: the second row is the first of the family. -/
theorem GetMostRecentContestID_first_match_witness :
    exampleNet "https://atcoder.jp/contests/archive"
        = .ok { StatusCode := 200, Body := .ok exampleArchive }
      ∧ GetMostRecentContestID exampleNet = .ok "abc360" :=
  ⟨rfl,
    ((GetMostRecentContestID_first_match exampleNet exampleArchive rfl).1
      [{ anchors := [some "/contests/archive?category=1", some "/contests/arc180"] }]
      { anchors := [some "/contests/archive?category=0", some "/contests/abc360"] }
      [{ anchors := [some "/contests/archive?category=0", some "/contests/abc359"] }]
      rfl (by decide) (by decide)).1⟩

/-- C8 (amended) on the default range string. -/
theorem range_endpoints_witness :
    "a-g".data.head? = some 'a' ∧ "a-g".data.getLast? = some 'g'
      ∧ rangeStart "a-g" = some 97 ∧ rangeEnd "a-g" = some 103 :=
  ⟨by decide, by decide,
    (range_endpoints "a-g" 'a' 'g' (by decide) (by decide)).2.2.1 (by decide),
    (range_endpoints "a-g" 'a' 'g' (by decide) (by decide)).2.2.2.1 (by decide)⟩

/-- C7 on the default range. -/
theorem problemIDs_range_witness :
    problemIDs 97 103 = ["a", "b", "c", "d", "e", "f", "g"]
      ∧ problemIDs 103 97 = [] :=
  ⟨(problemIDs_range 97 103 (by decide)).1.trans (by decide),
    (problemIDs_range 103 97 (by decide)).2.2.2.1 (by decide)⟩

/-- C6 on the example run: with one slot, one task is active in the middle of the run. -/
theorem active_le_concurrency_witness :
    setup exampleNet "" "a-b" 1 = some exampleDispatcher
      ∧ run exampleOs exampleNet exampleDispatcher (initial exampleDispatcher)
          [.acquire 1, .release 1, .acquire 0, .perform 0] = some exampleMiddle
      ∧ (activeCount exampleMiddle : Int) ≤ 1 :=
  ⟨by decide, by decide,
    (active_le_concurrency exampleOs exampleNet "" "a-b" 1 exampleDispatcher exampleMiddle
      (by decide) ⟨[.acquire 1, .release 1, .acquire 0, .perform 0], by decide⟩).1⟩

theorem exampleFinal_atRest : AtRest exampleOs exampleNet exampleDispatcher exampleFinal := by
  intro a
  cases a with
  | acquire i => rcases i with _ | _ | i <;> rfl
  | perform i => rcases i with _ | _ | i <;> rfl
  | release i => rcases i with _ | _ | i <;> rfl

/-- C9 (amended) on the example run: the missing problem `b` leaves nothing, nothing is
written under its folder, and problem `a` is saved when the run has come to rest. -/
theorem failure_isolated_witness :
    run exampleOs exampleNet exampleDispatcher (initial exampleDispatcher) exampleRun
        = some exampleFinal
      ∧ opsOf exampleFinal.journal "b" = []
      ∧ isUnder "testcases/b" "testcases/a/sample1.in.txt" = false
      ∧ opsOf exampleFinal.journal "a"
        = (SaveSamples exampleOs
            [{ Input := "1 2\n", Output := "3\n" }, { Input := "5 7\n", Output := "12\n" }]
            "testcases/a" []).1 :=
  ⟨by decide,
    ((failure_isolated exampleOs exampleNet "" "a-b" 1 exampleDispatcher exampleFinal
      (by decide) ⟨exampleRun, by decide⟩ 1 { problemID := "b", phase := .done } rfl).1
        "problem b not found (404)" rfl).1,
    ((failure_isolated exampleOs exampleNet "" "a-b" 1 exampleDispatcher exampleFinal
      (by decide) ⟨exampleRun, by decide⟩ 1 { problemID := "b", phase := .done } rfl).1
        "problem b not found (404)" rfl).2.2 (by decide) (by decide)
        ("a", .writeFile "testcases/a/sample1.in.txt" "1 2\n" 0o644) (by decide),
    ((failure_isolated exampleOs exampleNet "" "a-b" 1 exampleDispatcher exampleFinal
      (by decide) ⟨exampleRun, by decide⟩ 0 { problemID := "a", phase := .done } rfl).2.1
        [{ Input := "1 2\n", Output := "3\n" }, { Input := "5 7\n", Output := "12\n" }]
        rfl).2.2 (by decide) exampleFinal_atRest⟩
end Submtr
